import Mathlib

/-!
Verification of the `outline-web-clipper` browser extension (TypeScript)
against its natural-language specification.

The TypeScript sources are shallowly embedded: JavaScript strings become
`String`/`List Char`, the regular expressions appearing in the code are
translated into deterministic scanners (each regex used by the code is
built from complement character classes `[^x]` followed by the literal
`x`, so matching is deterministic and backtracking-free), browser / network
effects (fetch, axios, chrome.storage, `new URL`) become explicit
environment parameters, and `async` methods become pure functions from
those environments.
-/

namespace WebClipper

/-! ## Character-list utilities modelling JavaScript string primitives -/

/-- Boolean prefix test on character lists (models the anchored part of a
literal match inside a JavaScript regex or `String.prototype.startsWith`). -/
def pre : List Char → List Char → Bool
  | [], _ => true
  | _ :: _, [] => false
  | a :: as, b :: bs => if a = b then pre as bs else false

/-- Boolean substring test (models `String.prototype.includes`). -/
def sub (pat : List Char) : List Char → Bool
  | [] => pre pat []
  | c :: rest => pre pat (c :: rest) || sub pat rest

/-- String-level `includes`: `jsIncludes s pat` models `s.includes(pat)`. -/
def jsIncludes (s pat : String) : Bool := sub pat.data s.data

/-- Split off the characters strictly before the first occurrence of `t`;
also returns what follows that occurrence.  Models the forced behaviour of
a greedy complement class `[^t]*` (or `[^t]+`) followed by the literal `t`
in the regexes used by the extension. -/
def takeUntil (t : Char) : List Char → Option (List Char × List Char)
  | [] => none
  | c :: cs =>
    if c = t then some ([], cs)
    else
      match takeUntil t cs with
      | none => none
      | some (a, b) => some (c :: a, b)

theorem pre_eq_true_of_append (p r : List Char) : pre p (p ++ r) = true := by
  induction p with
  | nil => rfl
  | cons a as ih => simp [pre, ih]

theorem exists_of_pre_eq_true {p s : List Char} (h : pre p s = true) :
    ∃ r, s = p ++ r := by
  induction p generalizing s with
  | nil => exact ⟨s, rfl⟩
  | cons a as ih =>
    cases s with
    | nil => simp [pre] at h
    | cons b bs =>
      simp only [pre] at h
      split at h
      · obtain ⟨r, hr⟩ := ih h
        exact ⟨r, by simp_all⟩
      · simp at h

theorem sub_of_pre {pat s : List Char} (h : pre pat s = true) :
    sub pat s = true := by
  cases s with
  | nil => simpa [sub] using h
  | cons c cs => simp [sub, h]

theorem sub_cons_of_sub {pat s : List Char} (c : Char)
    (h : sub pat s = true) : sub pat (c :: s) = true := by
  simp [sub, h]

theorem sub_eq_true_of_append (pat l r : List Char) :
    sub pat (l ++ pat ++ r) = true := by
  induction l with
  | nil => exact sub_of_pre (pre_eq_true_of_append pat r)
  | cons c cs ih => simpa using sub_cons_of_sub c (by simpa using ih)

theorem exists_of_sub_eq_true {pat s : List Char} (h : sub pat s = true) :
    ∃ l r, s = l ++ pat ++ r := by
  induction s with
  | nil =>
    cases pat with
    | nil => exact ⟨[], [], rfl⟩
    | cons c cs => simp [sub, pre] at h
  | cons c cs ih =>
    simp only [sub, Bool.or_eq_true] at h
    rcases h with h | h
    · obtain ⟨r, hr⟩ := exists_of_pre_eq_true h
      exact ⟨[], r, by simp [hr]⟩
    · obtain ⟨l, r, hr⟩ := ih h
      exact ⟨c :: l, r, by simp [hr]⟩

theorem takeUntil_sound {t : Char} {cs a b : List Char}
    (h : takeUntil t cs = some (a, b)) : cs = a ++ t :: b ∧ t ∉ a := by
  induction cs generalizing a with
  | nil => simp [takeUntil] at h
  | cons c cs ih =>
    simp only [takeUntil] at h
    split at h
    · cases h
      simp_all
    · cases hrec : takeUntil t cs with
      | none => simp [hrec] at h
      | some p =>
        obtain ⟨a', b'⟩ := p
        simp only [hrec] at h
        cases h
        obtain ⟨h1, h2⟩ := ih hrec
        constructor
        · simp [h1]
        · simp_all only [List.mem_cons]
          rintro (rfl | hmem) <;> simp_all

theorem takeUntil_complete {t : Char} {a : List Char} (b : List Char)
    (h : t ∉ a) : takeUntil t (a ++ t :: b) = some (a, b) := by
  induction a with
  | nil => simp [takeUntil]
  | cons c cs ih =>
    have hc : ¬ c = t := by rintro rfl; simp at h
    have hcs : t ∉ cs := by intro hm; exact h (List.mem_cons_of_mem _ hm)
    simp [takeUntil, hc, ih hcs]

/-- Characters trimmed by `String.prototype.trim` (ASCII whitespace is
enough for the cell texts the claims quantify over). -/
def jsWhitespace (c : Char) : Bool :=
  c = ' ' || c = '\n' || c = '\t' || c = '\r' || c = '\x0c' || c = '\x0b'

/-- Modelling of `String.prototype.trim` on character lists. -/
def trimChars (l : List Char) : List Char :=
  ((l.dropWhile jsWhitespace).reverse.dropWhile jsWhitespace).reverse

/-- Modelling of `String.prototype.trim`. -/
def jsTrim (s : String) : String := ⟨trimChars s.data⟩

theorem not_mem_trimChars {c : Char} {l : List Char} (h : c ∉ l) :
    c ∉ trimChars l := by
  intro hmem
  apply h
  unfold trimChars at hmem
  rw [List.mem_reverse] at hmem
  have h1 := (List.dropWhile_sublist (l := (l.dropWhile jsWhitespace).reverse)
    (p := jsWhitespace)).mem hmem
  rw [List.mem_reverse] at h1
  exact (List.dropWhile_sublist (l := l) (p := jsWhitespace)).mem h1

theorem strData_append (a b : String) : (a ++ b).data = a.data ++ b.data := by
  cases a; cases b; rfl

end WebClipper

namespace WebClipper

/-! ## `UploadStateStorage` (`src/features/storage/upload-state.ts`)

The `chrome.storage.local` slot holding the upload state is modelled as an
`Option UploadState` value threaded explicitly. -/

/-- The `UploadState` interface of `upload-state.ts`; `documentId` and
`shouldStop` are optional fields. -/
structure UploadState where
  isUploading : Bool
  currentIndex : Nat
  totalImages : Nat
  startTime : Nat
  documentId : Option String
  shouldStop : Option Bool
deriving DecidableEq

namespace UploadStateStorage

/-- `UploadStateStorage.getState`: reads the stored record (or `null`). -/
def getState (store : Option UploadState) : Option UploadState := store

/-- `UploadStateStorage.setState`: overwrites the slot with the whole
record given to it. -/
def setState (_store : Option UploadState) (state : UploadState) :
    Option UploadState := some state

/-- `UploadStateStorage.updateProgress`: reads the state and, when it
exists, writes it back with `currentIndex` and `totalImages` replaced. -/
def updateProgress (store : Option UploadState)
    (currentIndex totalImages : Nat) : Option UploadState :=
  match getState store with
  | none => store
  | some state =>
    setState store
      { state with currentIndex := currentIndex, totalImages := totalImages }

end UploadStateStorage

end WebClipper

namespace WebClipper

/-! ## `ContentExtractor.convertTableToMarkdown`
(`src/features/content_extraction/extractor.ts`, lines 1346-1364)

A DOM table reaches the converter as its list of rows, each row the list
of the `textContent` strings of its cells. -/

namespace ContentExtractor

/-- JavaScript `Array.prototype.join` with a separator. -/
def jsJoin (sep : String) : List String → String
  | [] => ""
  | [x] => x
  | x :: y :: ys => x ++ sep ++ jsJoin sep (y :: ys)

/-- Concatenation of a list of strings (the `markdown +=` accumulation
over the data rows). -/
def concatAll : List String → String
  | [] => ""
  | x :: xs => x ++ concatAll xs

/-- `ContentExtractor.convertTableToMarkdown`: the first row gives the
header line, a dash separator follows, then one line per remaining row;
cell texts are trimmed and the whole table is wrapped in blank lines. -/
def convertTableToMarkdown (rows : List (List String)) : String :=
  match rows with
  | [] => ""
  | headRow :: dataRows =>
    let headers := headRow.map jsTrim
    let headerLine := "| " ++ jsJoin " | " headers ++ " |\n"
    let sepLine := "| " ++ jsJoin " | " (headers.map (fun _ => "---")) ++ " |\n"
    let dataLines :=
      dataRows.map (fun r => "| " ++ jsJoin " | " (r.map jsTrim) ++ " |\n")
    "\n\n" ++ headerLine ++ sepLine ++ concatAll dataLines ++ "\n"

/-- Split a character list at newline characters. -/
def splitLines : List Char → List (List Char)
  | [] => [[]]
  | c :: cs =>
    if c = '\n' then [] :: splitLines cs
    else
      match splitLines cs with
      | [] => [[c]]
      | l :: ls => (c :: l) :: ls

/-- The non-empty lines of a string, as character lists. -/
def markdownLines (s : String) : List (List Char) :=
  (splitLines s.data).filter (fun l => l ≠ [])

theorem splitLines_cons_newline (cs : List Char) :
    splitLines ('\n' :: cs) = [] :: splitLines cs := by
  simp [splitLines]

theorem splitLines_ne_nil (cs : List Char) : splitLines cs ≠ [] := by
  induction cs with
  | nil => simp [splitLines]
  | cons c cs ih =>
    simp only [splitLines]
    split
    · simp
    · cases h : splitLines cs <;> simp

theorem splitLines_append_line {l : List Char} (rest : List Char)
    (h : '\n' ∉ l) : splitLines (l ++ '\n' :: rest) = l :: splitLines rest := by
  induction l with
  | nil => simp [splitLines]
  | cons c cs ih =>
    have hc : ¬ c = '\n' := by rintro rfl; simp at h
    have hcs : '\n' ∉ cs := by intro hm; exact h (List.mem_cons_of_mem _ hm)
    simp only [List.cons_append, splitLines, hc, if_false]
    rw [show cs.append ('\n' :: rest) = cs ++ '\n' :: rest from rfl, ih hcs]

theorem splitLines_join_lines (L : List (List Char))
    (h : ∀ l ∈ L, '\n' ∉ l) :
    splitLines ((L.map (fun l => l ++ ['\n'])).flatten ++ ['\n']) =
      L ++ [[], []] := by
  induction L with
  | nil => simp [splitLines]
  | cons l ls ih =>
    have hl : '\n' ∉ l := h l (by simp)
    have hls : ∀ x ∈ ls, '\n' ∉ x := fun x hx => h x (by simp [hx])
    simp only [List.map_cons, List.flatten_cons, List.append_assoc,
      List.cons_append, List.nil_append]
    rw [splitLines_append_line _ hl, ih hls]

/-- Character content of one pipe-table line built from a cell list. -/
def rowLineChars (cells : List String) : List Char :=
  "| ".data ++ (jsJoin " | " cells).data ++ " |".data

theorem concatAll_data (L : List String) :
    (concatAll L).data = (L.map String.data).flatten := by
  induction L with
  | nil => rfl
  | cons x xs ih => simp [concatAll, strData_append, ih]

theorem jsJoin_count_pipe (cells : List String) (hne : cells ≠ [])
    (h : ∀ s ∈ cells, '|' ∉ s.data) :
    ((jsJoin " | " cells).data.count '|') = cells.length - 1 := by
  induction cells with
  | nil => simp at hne
  | cons x xs ih =>
    cases xs with
    | nil =>
      have hx : '|' ∉ x.data := h x (by simp)
      simp [jsJoin, List.count_eq_zero.mpr hx]
    | cons y ys =>
      have hx : '|' ∉ x.data := h x (by simp)
      have hrest : ∀ s ∈ y :: ys, '|' ∉ s.data := fun s hs => h s (by simp [hs])
      have := ih (by simp) hrest
      simp only [jsJoin, strData_append, List.count_append, this,
        List.count_eq_zero.mpr hx]
      have e1 : (" | ".data.count '|') = 1 := by decide
      simp only [e1, List.length_cons]
      omega

theorem jsJoin_no_newline (cells : List String)
    (h : ∀ s ∈ cells, '\n' ∉ s.data) :
    '\n' ∉ (jsJoin " | " cells).data := by
  induction cells with
  | nil => simp [jsJoin]
  | cons x xs ih =>
    cases xs with
    | nil => simpa [jsJoin] using h x (by simp)
    | cons y ys =>
      have hx : '\n' ∉ x.data := h x (by simp)
      have hrest := ih (fun s hs => h s (by simp [hs]))
      simp only [jsJoin, strData_append]
      intro hc
      rcases List.mem_append.mp hc with hc1 | hc2
      · rcases List.mem_append.mp hc1 with hd | hd
        · exact hx hd
        · simp at hd
      · exact hrest hc2

theorem rowLineChars_count (cells : List String) (hne : cells ≠ [])
    (h : ∀ s ∈ cells, '|' ∉ s.data) :
    (rowLineChars cells).count '|' = cells.length + 1 := by
  have h1 := jsJoin_count_pipe cells hne h
  have hlen : 1 ≤ cells.length := by
    cases cells with
    | nil => simp at hne
    | cons a as => simp
  have e1 : ("| ".data.count '|') = 1 := by decide
  have e2 : (" |".data.count '|') = 1 := by decide
  simp only [rowLineChars, List.count_append, h1, e1, e2]
  omega

theorem rowLineChars_no_newline (cells : List String)
    (h : ∀ s ∈ cells, '\n' ∉ s.data) : '\n' ∉ rowLineChars cells := by
  have h1 := jsJoin_no_newline cells h
  simp only [rowLineChars, List.mem_append]
  rintro ((hc | hc) | hc)
  · simp at hc
  · exact h1 hc
  · simp at hc

theorem rowLineChars_ne_nil (cells : List String) : rowLineChars cells ≠ [] := by
  simp [rowLineChars]

theorem convertTableToMarkdown_data (headRow : List String)
    (dataRows : List (List String)) :
    (convertTableToMarkdown (headRow :: dataRows)).data =
      '\n' :: '\n' ::
        (((rowLineChars (headRow.map jsTrim) ::
           rowLineChars ((headRow.map jsTrim).map (fun _ => "---")) ::
           dataRows.map (fun r => rowLineChars (r.map jsTrim))).map
             (fun l => l ++ ['\n'])).flatten ++ ['\n']) := by
  have hline : ∀ cells : List String,
      ("| " ++ jsJoin " | " cells ++ " |\n").data = rowLineChars cells ++ ['\n'] := by
    intro cells
    simp only [rowLineChars, strData_append, List.append_assoc]
    rfl
  have hC : (concatAll (dataRows.map
        (fun r => "| " ++ jsJoin " | " (r.map jsTrim) ++ " |\n"))).data =
      ((dataRows.map (fun r => rowLineChars (r.map jsTrim))).map
        (fun l => l ++ ['\n'])).flatten := by
    rw [concatAll_data, List.map_map, List.map_map]
    refine congrArg List.flatten (List.map_congr_left ?_)
    intro r _
    simpa using hline (r.map jsTrim)
  show ("\n\n" ++ ("| " ++ jsJoin " | " (headRow.map jsTrim) ++ " |\n") ++
      ("| " ++ jsJoin " | " ((headRow.map jsTrim).map (fun _ => "---")) ++ " |\n") ++
      concatAll (dataRows.map (fun r => "| " ++ jsJoin " | " (r.map jsTrim) ++ " |\n")) ++
      "\n").data = _
  rw [strData_append, strData_append, strData_append, strData_append,
    hline, hline, hC]
  simp [List.append_assoc]

end ContentExtractor

end WebClipper

namespace WebClipper

open ContentExtractor

/-- Claim C10: `UploadStateStorage.updateProgress` modifies only the
`currentIndex` and `totalImages` fields of the persisted upload state,
leaving `isUploading`, `startTime`, `shouldStop` and `documentId`
unchanged, writes nothing when no upload state exists, and always replaces
the state as a whole record. -/
theorem C10_updateProgress_frame (ci ti : Nat) :
    UploadStateStorage.updateProgress none ci ti = none ∧
    ∀ st : UploadState, ∃ st' : UploadState,
      UploadStateStorage.updateProgress (some st) ci ti = some st' ∧
      st'.currentIndex = ci ∧ st'.totalImages = ti ∧
      st'.isUploading = st.isUploading ∧ st'.startTime = st.startTime ∧
      st'.shouldStop = st.shouldStop ∧ st'.documentId = st.documentId :=
  ⟨rfl, fun st => ⟨_, rfl, rfl, rfl, rfl, rfl, rfl, rfl⟩⟩

/-- Claim C7 as stated is false: a data-free table whose single header cell
contains a newline yields 3 non-empty lines instead of N + 2 = 2, and a
table whose rows have M = 0 cells yields lines with 2 pipes instead of
M + 1 = 1.  Both counterexamples satisfy the claim's stated hypothesis
(no pipe characters in the cell text). -/
theorem C7_counterexample :
    ¬ (markdownLines (convertTableToMarkdown [["a\nb"]])).length = 0 + 2 ∧
    ∃ l ∈ markdownLines (convertTableToMarkdown [([] : List String)]),
      ¬ l.count '|' = 0 + 1 := by
  constructor
  · decide
  · exact ⟨"|  |".data, by decide, by decide⟩

/-- Claim C7 (amended): for every table with one header row and N data
rows, all of M ≥ 1 cells, whose trimmed cell texts contain neither pipe
nor newline characters, `convertTableToMarkdown` produces exactly N + 2
non-empty lines — header, dash separator, then the N data lines — each
containing exactly M + 1 pipe characters. -/
theorem C7_convertTableToMarkdown_shape (headRow : List String)
    (dataRows : List (List String)) (M : Nat)
    (hM : headRow.length = M) (hMpos : 1 ≤ M)
    (hlen : ∀ r ∈ dataRows, r.length = M)
    (hclean : ∀ r ∈ headRow :: dataRows, ∀ cell ∈ r,
      '|' ∉ (jsTrim cell).data ∧ '\n' ∉ (jsTrim cell).data) :
    (markdownLines (convertTableToMarkdown (headRow :: dataRows))).length =
        dataRows.length + 2 ∧
    ∀ l ∈ markdownLines (convertTableToMarkdown (headRow :: dataRows)),
      l.count '|' = M + 1 := by
  classical
  set L : List (List Char) :=
    rowLineChars (headRow.map jsTrim) ::
      rowLineChars ((headRow.map jsTrim).map (fun _ => "---")) ::
      dataRows.map (fun r => rowLineChars (r.map jsTrim)) with hL
  have hheadClean : ∀ s ∈ headRow.map jsTrim, '|' ∉ s.data ∧ '\n' ∉ s.data := by
    intro s hs
    obtain ⟨cell, hcell, rfl⟩ := List.mem_map.mp hs
    exact hclean headRow (by simp) cell hcell
  have hsepClean : ∀ s ∈ (headRow.map jsTrim).map (fun _ => "---"),
      '|' ∉ s.data ∧ '\n' ∉ s.data := by
    intro s hs
    obtain ⟨cell, _, rfl⟩ := List.mem_map.mp hs
    constructor <;> decide
  have hrowClean : ∀ r ∈ dataRows, ∀ s ∈ r.map jsTrim,
      '|' ∉ s.data ∧ '\n' ∉ s.data := by
    intro r hr s hs
    obtain ⟨cell, hcell, rfl⟩ := List.mem_map.mp hs
    exact hclean r (by simp [hr]) cell hcell
  have hnl : ∀ l ∈ L, '\n' ∉ l := by
    intro l hl
    rw [hL] at hl
    simp only [List.mem_cons] at hl
    rcases hl with rfl | rfl | hl
    · exact rowLineChars_no_newline _ (fun s hs => (hheadClean s hs).2)
    · exact rowLineChars_no_newline _ (fun s hs => (hsepClean s hs).2)
    · obtain ⟨r, hr, rfl⟩ := List.mem_map.mp hl
      exact rowLineChars_no_newline _ (fun s hs => (hrowClean r hr s hs).2)
  have hsplit : splitLines (convertTableToMarkdown (headRow :: dataRows)).data =
      [] :: [] :: (L ++ [[], []]) := by
    rw [convertTableToMarkdown_data, splitLines_cons_newline,
      splitLines_cons_newline, splitLines_join_lines L hnl]
  have hLne : ∀ l ∈ L, l ≠ [] := by
    intro l hl
    rw [hL] at hl
    simp only [List.mem_cons] at hl
    rcases hl with rfl | rfl | hl
    · exact rowLineChars_ne_nil _
    · exact rowLineChars_ne_nil _
    · obtain ⟨r, _, rfl⟩ := List.mem_map.mp hl
      exact rowLineChars_ne_nil _
  have hlines : markdownLines (convertTableToMarkdown (headRow :: dataRows)) = L := by
    unfold markdownLines
    rw [hsplit]
    simp only [List.filter_cons, List.filter_append]
    have h1 : List.filter (fun l => decide (l ≠ [])) L = L := by
      rw [List.filter_eq_self]
      intro a ha
      simpa using hLne a ha
    simp [h1]
    exact fun a ha => hLne a ha
  constructor
  · rw [hlines, hL]
    simp
  · intro l hl
    rw [hlines, hL] at hl
    simp only [List.mem_cons] at hl
    rcases hl with rfl | rfl | hl
    · 
      have := rowLineChars_count (headRow.map jsTrim)
        (by cases headRow with
            | nil => simp at hM; omega
            | cons a as => simp)
        (fun s hs => (hheadClean s hs).1)
      rw [this]
      simp [hM]
    · have := rowLineChars_count ((headRow.map jsTrim).map (fun _ => "---"))
        (by cases headRow with
            | nil => simp at hM; omega
            | cons a as => simp)
        (fun s hs => (hsepClean s hs).1)
      rw [this]
      simp [hM]
    · obtain ⟨r, hr, rfl⟩ := List.mem_map.mp hl
      have := rowLineChars_count (r.map jsTrim)
        (by have := hlen r hr
            cases r with
            | nil => simp at this; omega
            | cons a as => simp)
        (fun s hs => (hrowClean r hr s hs).1)
      rw [this]
      simp [hlen r hr]

/-- Witness for claim C7's amended theorem at a concrete 2-column table
with one data row. -/
theorem C7_witness :
    (markdownLines (convertTableToMarkdown [["a", "b"], ["c", "d"]])).length =
        1 + 2 ∧
    ∀ l ∈ markdownLines (convertTableToMarkdown [["a", "b"], ["c", "d"]]),
      l.count '|' = 2 + 1 :=
  C7_convertTableToMarkdown_shape ["a", "b"] [["c", "d"]] 2 (by decide)
    (by decide) (by decide) (by decide)

end WebClipper

namespace WebClipper


/-! ## `ContentExtractor.convertRelativeImageUrls`
(`src/features/content_extraction/extractor.ts`, lines 1896-1917)

The pass rewrites every markdown image reference `![alt](url)` whose `url`
is relative.  The regex `!\[([^\]]*)\]\(([^)]+)\)` is deterministic:
`[^\]]*` runs to the first `]`, `[^)]+` to the first `)`, so a JavaScript
global replace is a left-to-right scan.  `new URL(url, window.location.href).href`
is the environment parameter `resolve` (`none` models the constructor
throwing). -/

namespace ContentExtractor

/-- Guard of the pass: `url.startsWith('http://') || url.startsWith('https://')
|| url.startsWith('data:') || url.startsWith('//')`. -/
def isAbsoluteImageUrl (url : List Char) : Bool :=
  pre "http://".data url || pre "https://".data url ||
    pre "data:".data url || pre "//".data url

/-- Attempted match of `([^\]]*)\]\(([^)]+)\)` directly after an opening
bracket; returns the two capture groups and the rest of the input. -/
def tryMatchAfterBracket (rest : List Char) :
    Option (List Char × List Char × List Char) :=
  match takeUntil ']' rest with
  | none => none
  | some (alt, rest1) =>
    match rest1 with
    | [] => none
    | c3 :: rest2 =>
      if c3 = '(' then
        match takeUntil ')' rest2 with
        | none => none
        | some (url, rest3) => if url = [] then none else some (alt, url, rest3)
      else none

/-- Attempted match of the image pattern `!\[([^\]]*)\]\(([^)]+)\)` at the
current scan position. -/
def tryMatch (cs : List Char) : Option (List Char × List Char × List Char) :=
  match cs with
  | c1 :: c2 :: rest =>
    if c1 = '!' then (if c2 = '[' then tryMatchAfterBracket rest else none)
    else none
  | _ => none

/-- URL written back for one image match: kept when absolute, resolved
against the page otherwise, kept on resolution failure. -/
def imageUrlBody (resolve : String → Option String) (url : List Char) :
    List Char :=
  if isAbsoluteImageUrl url then url
  else
    match resolve (String.mk url) with
    | some absoluteUrl => absoluteUrl.data
    | none => url

/-- Replacement text emitted for one match of the image pattern. -/
def emitImage (resolve : String → Option String) (alt url : List Char) :
    List Char :=
  '!' :: '[' :: alt ++ ']' :: '(' :: imageUrlBody resolve url ++ [')']

/-- Fueled left-to-right global-replace scan of the image pattern. -/
def goImages (resolve : String → Option String) :
    Nat → List Char → List Char
  | 0, cs => cs
  | _ + 1, [] => []
  | fuel + 1, c :: cs =>
    match tryMatch (c :: cs) with
    | some (alt, url, rest) =>
      emitImage resolve alt url ++ goImages resolve fuel rest
    | none => c :: goImages resolve fuel cs

/-- Scan with adequate fuel. -/
def imagePass (resolve : String → Option String) (cs : List Char) :
    List Char :=
  goImages resolve cs.length cs

/-- `ContentExtractor.convertRelativeImageUrls`. -/
def convertRelativeImageUrls (resolve : String → Option String)
    (markdown : String) : String :=
  String.mk (imagePass resolve markdown.data)

theorem takeUntil_eq_none {t : Char} {l : List Char} (h : t ∉ l) :
    takeUntil t l = none := by
  induction l with
  | nil => rfl
  | cons c cs ih =>
    have hc : ¬ c = t := by rintro rfl; simp at h
    have hcs : t ∉ cs := fun hm => h (List.mem_cons_of_mem _ hm)
    simp [takeUntil, hc, ih hcs]

theorem mem_of_takeUntil_eq_some {t : Char} {l a b : List Char}
    (h : takeUntil t l = some (a, b)) : t ∈ l := by
  obtain ⟨h1, -⟩ := takeUntil_sound h
  subst h1
  simp

theorem tryMatchAfterBracket_sound {rest alt url rest3 : List Char}
    (h : tryMatchAfterBracket rest = some (alt, url, rest3)) :
    rest = alt ++ ']' :: ('(' :: (url ++ ')' :: rest3)) ∧
      ']' ∉ alt ∧ ')' ∉ url ∧ url ≠ [] := by
  unfold tryMatchAfterBracket at h
  cases h1 : takeUntil ']' rest with
  | none => simp [h1] at h
  | some p =>
    obtain ⟨alt', rest1⟩ := p
    rw [h1] at h
    cases rest1 with
    | nil => simp at h
    | cons c3 rest2 =>
      simp only at h
      split at h
      · cases h2 : takeUntil ')' rest2 with
        | none => simp [h2] at h
        | some q =>
          obtain ⟨url', rest3'⟩ := q
          rw [h2] at h
          simp only at h
          split at h
          · simp at h
          · cases h
            obtain ⟨e1, m1⟩ := takeUntil_sound h1
            obtain ⟨e2, m2⟩ := takeUntil_sound h2
            subst e1
            subst e2
            simp_all
      · simp at h

theorem tryMatchAfterBracket_complete {alt url : List Char}
    (rest3 : List Char) (halt : ']' ∉ alt) (hurl : ')' ∉ url)
    (hne : url ≠ []) :
    tryMatchAfterBracket (alt ++ ']' :: ('(' :: (url ++ ')' :: rest3))) =
      some (alt, url, rest3) := by
  have h1 := takeUntil_complete (t := ']') (a := alt)
    ('(' :: (url ++ ')' :: rest3)) halt
  have h2 := takeUntil_complete (t := ')') (a := url) rest3 hurl
  unfold tryMatchAfterBracket
  rw [h1]
  simp [h2, hne]

theorem tryMatch_sound {cs alt url rest : List Char}
    (h : tryMatch cs = some (alt, url, rest)) :
    cs = '!' :: '[' :: (alt ++ ']' :: ('(' :: (url ++ ')' :: rest))) ∧
      ']' ∉ alt ∧ ')' ∉ url ∧ url ≠ [] := by
  unfold tryMatch at h
  cases cs with
  | nil => simp at h
  | cons c1 t =>
    cases t with
    | nil => simp at h
    | cons c2 r =>
      simp only at h
      split at h
      · split at h
        · obtain ⟨e, p⟩ := tryMatchAfterBracket_sound h
          subst e
          simp_all
        · simp at h
      · simp at h

theorem tryMatch_complete {alt url : List Char} (rest : List Char)
    (halt : ']' ∉ alt) (hurl : ')' ∉ url) (hne : url ≠ []) :
    tryMatch ('!' :: '[' :: (alt ++ ']' :: ('(' :: (url ++ ')' :: rest)))) =
      some (alt, url, rest) := by
  show tryMatchAfterBracket (alt ++ ']' :: ('(' :: (url ++ ')' :: rest))) =
    some (alt, url, rest)
  exact tryMatchAfterBracket_complete rest halt hurl hne

theorem tryMatch_rest_length {cs alt url rest : List Char}
    (h : tryMatch cs = some (alt, url, rest)) :
    rest.length + 6 ≤ cs.length := by
  obtain ⟨e, -, -, hne⟩ := tryMatch_sound h
  subst e
  have : 1 ≤ url.length := by
    cases url with
    | nil => simp at hne
    | cons a as => simp
  simp only [List.length_cons, List.length_append]
  omega

theorem goImages_fuel (resolve : String → Option String) :
    ∀ (f1 : Nat) (cs : List Char) (f2 : Nat), cs.length ≤ f1 →
      cs.length ≤ f2 → goImages resolve f1 cs = goImages resolve f2 cs := by
  intro f1
  induction f1 with
  | zero =>
    intro cs f2 h1 _
    have : cs = [] := by
      cases cs with
      | nil => rfl
      | cons c t => simp at h1
    subst this
    cases f2 <;> rfl
  | succ n ih =>
    intro cs f2 h1 h2
    cases cs with
    | nil => cases f2 <;> rfl
    | cons c t =>
      cases f2 with
      | zero => simp at h2
      | succ m =>
        simp only [goImages]
        cases hm : tryMatch (c :: t) with
        | some triple =>
          obtain ⟨alt, url, rest⟩ := triple
          have hlen := tryMatch_rest_length hm
          simp only [List.length_cons] at h1 h2 hlen
          dsimp only
          rw [ih rest m (by omega) (by omega)]
        | none =>
          simp only [List.length_cons] at h1 h2
          dsimp only
          rw [ih t m (by omega) (by omega)]

theorem imagePass_nil (resolve : String → Option String) :
    imagePass resolve [] = [] := rfl

theorem imagePass_match {cs alt url rest : List Char} {c : Char}
    (resolve : String → Option String)
    (h : tryMatch (c :: cs) = some (alt, url, rest)) :
    imagePass resolve (c :: cs) =
      emitImage resolve alt url ++ imagePass resolve rest := by
  unfold imagePass
  have hlen := tryMatch_rest_length h
  simp only [List.length_cons] at hlen ⊢
  simp only [goImages, h]
  rw [goImages_fuel resolve cs.length rest rest.length (by omega) (by omega)]

theorem imagePass_nomatch {cs : List Char} {c : Char}
    (resolve : String → Option String) (h : tryMatch (c :: cs) = none) :
    imagePass resolve (c :: cs) = c :: imagePass resolve cs := by
  unfold imagePass
  simp only [List.length_cons, goImages, h]


theorem takeUntil_ne_none_of_mem {t : Char} {l : List Char} (h : t ∈ l) :
    takeUntil t l ≠ none := by
  induction l with
  | nil => simp at h
  | cons c cs ih =>
    by_cases hc : c = t
    · simp [takeUntil, hc]
    · have : t ∈ cs := by
        rcases List.mem_cons.mp h with h1 | h1
        · exact absurd h1.symm hc
        · exact h1
      simp only [takeUntil, hc, if_false]
      cases hr : takeUntil t cs with
      | none => exact absurd hr (ih this)
      | some p => obtain ⟨a, b⟩ := p; simp

theorem tryMatch_none_of_no_bracket {c : Char} {cs : List Char}
    (h : ']' ∉ c :: cs) : tryMatch (c :: cs) = none := by
  cases hm : tryMatch (c :: cs) with
  | none => rfl
  | some tr =>
    obtain ⟨alt, url, rest⟩ := tr
    obtain ⟨e, -, -, -⟩ := tryMatch_sound hm
    rw [e] at h
    simp at h

theorem tryMatch_none_of_no_paren {c : Char} {cs : List Char}
    (h : ')' ∉ c :: cs) : tryMatch (c :: cs) = none := by
  cases hm : tryMatch (c :: cs) with
  | none => rfl
  | some tr =>
    obtain ⟨alt, url, rest⟩ := tr
    obtain ⟨e, -, -, -⟩ := tryMatch_sound hm
    rw [e] at h
    simp at h

theorem tryMatch_none_not_bang {c : Char} {cs : List Char} (h : c ≠ '!') :
    tryMatch (c :: cs) = none := by
  cases cs with
  | nil => rfl
  | cons d t => simp [tryMatch, h]

theorem tryMatch_none_snd {c d : Char} {cs : List Char} (h : d ≠ '[') :
    tryMatch (c :: d :: cs) = none := by
  simp [tryMatch, h]

theorem imagePass_no_bracket (resolve : String → Option String)
    {cs : List Char} (h : ']' ∉ cs) : imagePass resolve cs = cs := by
  induction cs with
  | nil => rfl
  | cons c t ih =>
    have ht : ']' ∉ t := fun hm => h (List.mem_cons_of_mem _ hm)
    rw [imagePass_nomatch resolve (tryMatch_none_of_no_bracket h), ih ht]

theorem imagePass_no_paren (resolve : String → Option String)
    {cs : List Char} (h : ')' ∉ cs) : imagePass resolve cs = cs := by
  induction cs with
  | nil => rfl
  | cons c t ih =>
    have ht : ')' ∉ t := fun hm => h (List.mem_cons_of_mem _ hm)
    rw [imagePass_nomatch resolve (tryMatch_none_of_no_paren h), ih ht]

theorem imagePass_cons_head (resolve : String → Option String) (d : Char)
    (cs : List Char) :
    ∃ t, imagePass resolve (d :: cs) = '!' :: t ∨
      imagePass resolve (d :: cs) = d :: t := by
  cases hm : tryMatch (d :: cs) with
  | some tr =>
    obtain ⟨alt, url, rest⟩ := tr
    rw [imagePass_match resolve hm]
    refine ⟨'[' :: (alt ++ ']' :: ('(' :: (imageUrlBody resolve url ++
      ')' :: imagePass resolve rest))), Or.inl ?_⟩
    simp [emitImage, List.append_assoc]
  | none =>
    rw [imagePass_nomatch resolve hm]
    exact ⟨_, Or.inr rfl⟩

theorem tryMatchAfterBracket_none_of_head {alt r : List Char}
    (hnalt : ']' ∉ alt) (hh : ∀ u, r ≠ '(' :: u) :
    tryMatchAfterBracket (alt ++ ']' :: r) = none := by
  cases r with
  | nil => simp [tryMatchAfterBracket, takeUntil_complete ([] : List Char) hnalt]
  | cons c3 u =>
    have hc3 : ¬ c3 = '(' := fun hc => hh u (by rw [hc])
    simp [tryMatchAfterBracket, takeUntil_complete (c3 :: u) hnalt, hc3]

theorem tryMatchAfterBracket_none_empty_url {alt r3 : List Char}
    (hnalt : ']' ∉ alt) :
    tryMatchAfterBracket (alt ++ ']' :: '(' :: ')' :: r3) = none := by
  simp [tryMatchAfterBracket, takeUntil_complete ('(' :: ')' :: r3) hnalt,
    takeUntil]

theorem tryMatchAfterBracket_none_no_paren {alt r2 : List Char}
    (hnalt : ']' ∉ alt) (h2 : ')' ∉ r2) :
    tryMatchAfterBracket (alt ++ ']' :: '(' :: r2) = none := by
  simp [tryMatchAfterBracket, takeUntil_complete ('(' :: r2) hnalt,
    takeUntil_eq_none h2]

theorem imagePass_alt_region (resolve : String → Option String)
    {p r1 : List Char} (hp : ']' ∉ p) (hh : ∀ u, r1 ≠ '(' :: u) :
    imagePass resolve (p ++ ']' :: r1) = p ++ ']' :: imagePass resolve r1 := by
  induction p with
  | nil =>
    rw [List.nil_append,
      imagePass_nomatch resolve (tryMatch_none_not_bang (by decide))]
    rfl
  | cons a p' ih =>
    have hp' : ']' ∉ p' := fun hm => hp (List.mem_cons_of_mem _ hm)
    have hnone : tryMatch (a :: (p' ++ ']' :: r1)) = none := by
      by_cases ha : a = '!'
      · subst ha
        cases p' with
        | nil => exact tryMatch_none_snd (by decide)
        | cons b p'' =>
          by_cases hb : b = '['
          · subst hb
            have hp'' : ']' ∉ p'' := fun hm => hp' (List.mem_cons_of_mem _ hm)
            show tryMatchAfterBracket (p'' ++ ']' :: r1) = none
            exact tryMatchAfterBracket_none_of_head hp'' hh
          · exact tryMatch_none_snd hb
      · exact tryMatch_none_not_bang ha
    rw [List.cons_append, imagePass_nomatch resolve hnone, ih hp']
    rfl

theorem imagePass_empty_url_region (resolve : String → Option String)
    {p r3 : List Char} (hp : ']' ∉ p) :
    imagePass resolve (p ++ ']' :: '(' :: ')' :: r3) =
      p ++ ']' :: '(' :: ')' :: imagePass resolve r3 := by
  induction p with
  | nil =>
    rw [List.nil_append,
      imagePass_nomatch resolve (tryMatch_none_not_bang (by decide)),
      imagePass_nomatch resolve (tryMatch_none_not_bang (by decide)),
      imagePass_nomatch resolve (tryMatch_none_not_bang (by decide))]
    rfl
  | cons a p' ih =>
    have hp' : ']' ∉ p' := fun hm => hp (List.mem_cons_of_mem _ hm)
    have hnone : tryMatch (a :: (p' ++ ']' :: '(' :: ')' :: r3)) = none := by
      by_cases ha : a = '!'
      · subst ha
        cases p' with
        | nil => exact tryMatch_none_snd (by decide)
        | cons b p'' =>
          by_cases hb : b = '['
          · subst hb
            have hp'' : ']' ∉ p'' := fun hm => hp' (List.mem_cons_of_mem _ hm)
            show tryMatchAfterBracket (p'' ++ ']' :: '(' :: ')' :: r3) = none
            exact tryMatchAfterBracket_none_empty_url hp''
          · exact tryMatch_none_snd hb
      · exact tryMatch_none_not_bang ha
    rw [List.cons_append, imagePass_nomatch resolve hnone, ih hp']
    rfl

theorem imagePass_no_paren_region (resolve : String → Option String)
    {p r2 : List Char} (hp : ']' ∉ p) (h2 : ')' ∉ r2) :
    imagePass resolve (p ++ ']' :: '(' :: r2) = p ++ ']' :: '(' :: r2 := by
  induction p with
  | nil =>
    rw [List.nil_append,
      imagePass_nomatch resolve (tryMatch_none_not_bang (by decide)),
      imagePass_nomatch resolve (tryMatch_none_not_bang (by decide)),
      imagePass_no_paren resolve h2]
  | cons a p' ih =>
    have hp' : ']' ∉ p' := fun hm => hp (List.mem_cons_of_mem _ hm)
    have hnone : tryMatch (a :: (p' ++ ']' :: '(' :: r2)) = none := by
      by_cases ha : a = '!'
      · subst ha
        cases p' with
        | nil => exact tryMatch_none_snd (by decide)
        | cons b p'' =>
          by_cases hb : b = '['
          · subst hb
            have hp'' : ']' ∉ p'' := fun hm => hp' (List.mem_cons_of_mem _ hm)
            show tryMatchAfterBracket (p'' ++ ']' :: '(' :: r2) = none
            exact tryMatchAfterBracket_none_no_paren hp'' h2
          · exact tryMatch_none_snd hb
      · exact tryMatch_none_not_bang ha
    rw [List.cons_append, imagePass_nomatch resolve hnone, ih hp']


theorem imageUrlBody_ne_nil (resolve : String → Option String)
    (H1 : ∀ u a, resolve u = some a → a.data ≠ [])
    {url : List Char} (hne : url ≠ []) :
    imageUrlBody resolve url ≠ [] := by
  unfold imageUrlBody
  split
  · exact hne
  · cases hres : resolve (String.mk url) with
    | none => exact hne
    | some a => exact H1 _ a hres

theorem imageUrlBody_no_paren (resolve : String → Option String)
    (H2 : ∀ u a, ')' ∉ u.data → resolve u = some a → ')' ∉ a.data)
    {url : List Char} (hurl : ')' ∉ url) :
    ')' ∉ imageUrlBody resolve url := by
  unfold imageUrlBody
  split
  · exact hurl
  · cases hres : resolve (String.mk url) with
    | none => exact hurl
    | some a => exact H2 (String.mk url) a hurl hres

theorem imageUrlBody_idem (resolve : String → Option String)
    (H3 : ∀ u a, resolve u = some a →
      isAbsoluteImageUrl a.data = true ∨ resolve a = some a)
    (url : List Char) :
    imageUrlBody resolve (imageUrlBody resolve url) =
      imageUrlBody resolve url := by
  by_cases habs : isAbsoluteImageUrl url = true
  · rw [show imageUrlBody resolve url = url from by simp [imageUrlBody, habs]]
    simp [imageUrlBody, habs]
  · cases hres : resolve (String.mk url) with
    | none =>
      have hbody : imageUrlBody resolve url = url := by
        simp [imageUrlBody, habs, hres]
      rw [hbody]
      simp [imageUrlBody, habs, hres]
    | some a =>
      have hbody : imageUrlBody resolve url = a.data := by
        simp [imageUrlBody, habs, hres]
      rw [hbody]
      rcases H3 _ a hres with h3 | h3
      · simp [imageUrlBody, h3]
      · by_cases habs2 : isAbsoluteImageUrl a.data = true
        · simp [imageUrlBody, habs2]
        · have hmk : String.mk a.data = a := rfl
          simp [imageUrlBody, habs2, hmk, h3]

theorem tryMatch_imagePass_none (resolve : String → Option String)
    {c : Char} {t : List Char} (hm : tryMatch (c :: t) = none) :
    tryMatch (c :: imagePass resolve t) = none := by
  by_cases hc : c = '!'
  · subst hc
    cases t with
    | nil => rfl
    | cons d t' =>
      by_cases hd : d = '['
      · subst hd
        have hab : tryMatchAfterBracket t' = none := hm
        have hpassHead : imagePass resolve ('[' :: t') =
            '[' :: imagePass resolve t' :=
          imagePass_nomatch resolve (tryMatch_none_not_bang (by decide))
        rw [hpassHead]
        show tryMatchAfterBracket (imagePass resolve t') = none
        cases ht : takeUntil ']' t' with
        | none =>
          have hnb : ']' ∉ t' := by
            intro hmem
            exact takeUntil_ne_none_of_mem hmem ht
          rw [imagePass_no_bracket resolve hnb]
          exact hab
        | some p =>
          obtain ⟨alt, r1⟩ := p
          obtain ⟨he, hnalt⟩ := takeUntil_sound ht
          subst he
          cases r1 with
          | nil =>
            rw [imagePass_alt_region resolve hnalt (fun u h => by simp at h)]
            exact hab
          | cons c3 r2 =>
            by_cases hc3 : c3 = '('
            · subst hc3
              cases htp : takeUntil ')' r2 with
              | none =>
                have hnp : ')' ∉ r2 := by
                  intro hmem
                  exact takeUntil_ne_none_of_mem hmem htp
                rw [imagePass_no_paren_region resolve hnalt hnp]
                exact hab
              | some q =>
                obtain ⟨url, rest⟩ := q
                obtain ⟨he2, hnurl⟩ := takeUntil_sound htp
                have hurl_nil : url = [] := by
                  by_contra hneq
                  have hcomp :=
                    tryMatchAfterBracket_complete rest hnalt hnurl hneq
                  rw [he2] at hab
                  rw [hab] at hcomp
                  simp at hcomp
                subst hurl_nil
                simp only [List.nil_append] at he2
                subst he2
                rw [imagePass_empty_url_region resolve hnalt]
                exact tryMatchAfterBracket_none_empty_url hnalt
            · have hh1 : ∀ u, c3 :: r2 ≠ '(' :: u := by
                intro u h
                rw [List.cons.injEq] at h
                exact hc3 h.1
              rw [imagePass_alt_region resolve hnalt hh1]
              obtain ⟨tl, htl⟩ := imagePass_cons_head resolve c3 r2
              rcases htl with he | he <;> rw [he]
              · refine tryMatchAfterBracket_none_of_head hnalt ?_
                intro u h
                rw [List.cons.injEq] at h
                exact absurd h.1 (by decide)
              · refine tryMatchAfterBracket_none_of_head hnalt ?_
                intro u h
                rw [List.cons.injEq] at h
                exact hc3 h.1
      · obtain ⟨tl, htl⟩ := imagePass_cons_head resolve d t'
        rcases htl with he | he <;> rw [he]
        · exact tryMatch_none_snd (by decide)
        · exact tryMatch_none_snd hd
  · exact tryMatch_none_not_bang hc


theorem imagePass_idem (resolve : String → Option String)
    (H1 : ∀ u a, resolve u = some a → a.data ≠ [])
    (H2 : ∀ u a, ')' ∉ u.data → resolve u = some a → ')' ∉ a.data)
    (H3 : ∀ u a, resolve u = some a →
      isAbsoluteImageUrl a.data = true ∨ resolve a = some a) :
    ∀ cs, imagePass resolve (imagePass resolve cs) = imagePass resolve cs := by
  have main : ∀ n cs, List.length cs ≤ n →
      imagePass resolve (imagePass resolve cs) = imagePass resolve cs := by
    intro n
    induction n with
    | zero =>
      intro cs h
      cases cs with
      | nil => rfl
      | cons c t => simp at h
    | succ n ih =>
      intro cs hlen
      cases cs with
      | nil => rfl
      | cons c t =>
        cases hm : tryMatch (c :: t) with
        | some tr =>
          obtain ⟨alt, url, rest⟩ := tr
          obtain ⟨e, halt, hurl, hne⟩ := tryMatch_sound hm
          have hB1 := imageUrlBody_ne_nil resolve H1 hne
          have hB2 := imageUrlBody_no_paren resolve H2 hurl
          have hBidem := imageUrlBody_idem resolve H3 url
          have hrestlen : rest.length ≤ n := by
            have := tryMatch_rest_length hm
            simp only [List.length_cons] at hlen this
            omega
          rw [imagePass_match resolve hm]
          have hshape : emitImage resolve alt url ++ imagePass resolve rest =
              '!' :: '[' :: (alt ++ ']' :: ('(' ::
                (imageUrlBody resolve url ++ ')' :: imagePass resolve rest))) := by
            simp [emitImage, List.append_assoc]
          rw [hshape]
          have hm2 := tryMatch_complete (imagePass resolve rest)
            halt hB2 hB1
          rw [imagePass_match resolve hm2, ih rest hrestlen]
          simp [emitImage, hBidem, List.append_assoc]
        | none =>
          rw [imagePass_nomatch resolve hm,
            imagePass_nomatch resolve (tryMatch_imagePass_none resolve hm),
            ih t (by simp only [List.length_cons] at hlen; omega)]
  intro cs
  exact main cs.length cs le_rfl

end ContentExtractor

end WebClipper

namespace WebClipper

open ContentExtractor

/-- Claim C8: the relative-to-absolute image URL pass is idempotent — for
every markdown string, applying `convertRelativeImageUrls` twice yields
the same output as applying it once.  The theorem is parametric in the
browser resolver `resolve u = (new URL(u, window.location.href)).href`
and assumes three standard properties of it on the paren-free inputs the
pass feeds it: a resolved reference is non-empty, contains no `)` when the
input had none, and is a fixed point (already-normalised absolute URLs
resolve to themselves) or starts with one of the absolute prefixes the
pass skips. -/
theorem C8_convertRelativeImageUrls_idempotent
    (resolve : String → Option String)
    (H1 : ∀ u a, resolve u = some a → a.data ≠ [])
    (H2 : ∀ u a, ')' ∉ u.data → resolve u = some a → ')' ∉ a.data)
    (H3 : ∀ u a, resolve u = some a →
      isAbsoluteImageUrl a.data = true ∨ resolve a = some a)
    (markdown : String) :
    convertRelativeImageUrls resolve (convertRelativeImageUrls resolve markdown) =
      convertRelativeImageUrls resolve markdown := by
  unfold convertRelativeImageUrls
  exact congrArg String.mk (imagePass_idem resolve H1 H2 H3 markdown.data)

/-- Concrete resolver for the witness: a fixed absolute base prepended to
anything not already carrying it. -/
def demoResolve (u : String) : Option String :=
  if pre "https://example.com/".data u.data then some u
  else some ("https://example.com/" ++ u)

theorem demoResolve_H1 : ∀ u a, demoResolve u = some a → a.data ≠ [] := by
  intro u a h
  unfold demoResolve at h
  split at h
  · cases h
    intro hnil
    rename_i hp
    rw [hnil] at hp
    simp [pre] at hp
  · cases h
    simp [strData_append]

theorem demoResolve_H2 :
    ∀ u a, ')' ∉ u.data → demoResolve u = some a → ')' ∉ a.data := by
  intro u a hu h
  unfold demoResolve at h
  split at h
  · cases h; exact hu
  · cases h
    rw [strData_append]
    intro hmem
    rcases List.mem_append.mp hmem with hmem | hmem
    · have : ')' ∈ "https://example.com/".data := hmem
      simp at this
    · exact hu hmem

theorem isAbsoluteImageUrl_of_https {l : List Char}
    (h : pre "https://".data l = true) : isAbsoluteImageUrl l = true := by
  unfold isAbsoluteImageUrl
  rw [h]
  simp

theorem demoResolve_H3 : ∀ u a, demoResolve u = some a →
    isAbsoluteImageUrl a.data = true ∨ demoResolve a = some a := by
  intro u a h
  have hsplit : "https://example.com/".data =
      "https://".data ++ "example.com/".data := by decide
  unfold demoResolve at h
  split at h
  · cases h
    left
    rename_i hp
    obtain ⟨r, hr⟩ := exists_of_pre_eq_true hp
    apply isAbsoluteImageUrl_of_https
    rw [hr, hsplit, List.append_assoc]
    exact pre_eq_true_of_append _ _
  · cases h
    left
    apply isAbsoluteImageUrl_of_https
    rw [strData_append, hsplit, List.append_assoc]
    exact pre_eq_true_of_append _ _

/-- Witness for claim C8's theorem: the concrete resolver satisfies the
three resolver hypotheses, and the theorem applies to a concrete markdown
string containing both a relative and an absolute image reference. -/
theorem C8_witness :
    convertRelativeImageUrls demoResolve
        (convertRelativeImageUrls demoResolve
          "![a](img.png) and ![b](https://example.com/x.png)") =
      convertRelativeImageUrls demoResolve
        "![a](img.png) and ![b](https://example.com/x.png)" :=
  C8_convertRelativeImageUrls_idempotent demoResolve demoResolve_H1
    demoResolve_H2 demoResolve_H3
    "![a](img.png) and ![b](https://example.com/x.png)"

end WebClipper

namespace WebClipper

/-! ## `LinkProcessor` (`src/features/content_extraction/link-processor.ts`)

`processLinks` rewrites markdown links `[text](url)` to Outline embed tags
`@[provider](id)` for recognised providers.  `new URL(url)` is modelled by
the environment parameter `parse`, giving the `hostname` and `pathname`
the provider rules read. -/

/-- Fields of a parsed `URL` object used by the link processor. -/
structure UrlParts where
  hostname : String
  pathname : String
deriving DecidableEq

/-- Modelling of `String.prototype.toLowerCase` (ASCII case folding is
enough for host names). -/
def jsToLower (s : String) : String := String.mk (s.data.map Char.toLower)

namespace LinkProcessor

open ContentExtractor

/-- Try, in order, each alternative prefix of a capture regex at the
current position; on a prefix hit the capture group is the maximal
following run of class characters and must be non-empty. -/
def tryAltsAt (cls : Char → Bool) (pats : List (List Char))
    (s : List Char) : Option (List Char) :=
  match pats with
  | [] => none
  | p :: ps =>
    if pre p s then
      let cap := (s.drop p.length).takeWhile cls
      if cap = [] then tryAltsAt cls ps s else some cap
    else tryAltsAt cls ps s

/-- Leftmost match of an alternation-of-prefixes capture regex over a
string: the JavaScript `String.prototype.match` search for the capture
regexes used below. -/
def scanCapture (cls : Char → Bool) (pats : List (List Char)) :
    List Char → Option (List Char)
  | [] => none
  | c :: rest =>
    match tryAltsAt cls pats (c :: rest) with
    | some cap => some cap
    | none => scanCapture cls pats rest

theorem tryAltsAt_some_ne_nil {cls : Char → Bool} {pats : List (List Char)}
    {s cap : List Char} (h : tryAltsAt cls pats s = some cap) : cap ≠ [] := by
  induction pats with
  | nil => simp [tryAltsAt] at h
  | cons p ps ih =>
    simp only [tryAltsAt] at h
    split at h
    · split at h
      · exact ih h
      · cases h
        assumption
    · exact ih h

theorem scanCapture_some_ne_nil {cls : Char → Bool} {pats : List (List Char)}
    {s cap : List Char} (h : scanCapture cls pats s = some cap) : cap ≠ [] := by
  induction s with
  | nil => simp [scanCapture] at h
  | cons c rest ih =>
    simp only [scanCapture] at h
    cases ha : tryAltsAt cls pats (c :: rest) with
    | some cap2 =>
      rw [ha] at h
      cases h
      exact tryAltsAt_some_ne_nil ha
    | none =>
      rw [ha] at h
      exact ih h

/-- Character class `[^&\n?#]` of the YouTube id captures. -/
def ytIdChar (c : Char) : Bool :=
  !(c = '&' || c = '\n' || c = '?' || c = '#')

/-- `LinkProcessor.isYouTube` (the `url` argument is unused in the
source as well). -/
def isYouTube (domain : String) (_url : UrlParts) : Bool :=
  jsIncludes domain "youtube.com" || jsIncludes domain "youtu.be"

/-- `LinkProcessor.extractYouTubeVideoId`: first regex with three
alternatives, then the `youtube.com/v/` fallback. -/
def extractYouTubeVideoId (url : String) : Option String :=
  match scanCapture ytIdChar
      ["youtube.com/watch?v=".data, "youtu.be/".data,
        "youtube.com/embed/".data] url.data with
  | some cap => some (String.mk cap)
  | none =>
    match scanCapture ytIdChar ["youtube.com/v/".data] url.data with
    | some cap => some (String.mk cap)
    | none => none

/-- `LinkProcessor.isTwitter`. -/
def isTwitter (domain : String) : Bool :=
  jsIncludes domain "twitter.com" || jsIncludes domain "x.com"

/-- `LinkProcessor.extractTwitterTweetId`: the `status` path segment
followed by a non-empty digit run, on the pathname. -/
def extractTwitterTweetId (url : UrlParts) : Option String :=
  (scanCapture Char.isDigit ["/status/".data] url.pathname.data).map String.mk

/-- `LinkProcessor.isCodePen`. -/
def isCodePen (domain : String) : Bool := jsIncludes domain "codepen.io"

/-- `LinkProcessor.extractCodePenId`: the `pen` path segment followed by a
non-empty run without slashes, on the pathname. -/
def extractCodePenId (url : UrlParts) : Option String :=
  (scanCapture (fun c => !(c = '/')) ["/pen/".data] url.pathname.data).map
    String.mk

/-- `LinkProcessor.isGitHubGist` (the `url` argument is unused in the
source as well). -/
def isGitHubGist (domain : String) (_url : UrlParts) : Bool :=
  jsIncludes domain "gist.github.com"

/-- Lower-case hexadecimal digit, the class `[a-f0-9]`. -/
def hexLowerChar (c : Char) : Bool :=
  ('a' ≤ c && c ≤ 'f') || ('0' ≤ c && c ≤ '9')

/-- Leftmost match of the gist id regex, returning the second capture
group: a slash, a non-empty run without slashes, a slash, then a
non-empty run of `[a-f0-9]`. -/
def gistScan : List Char → Option (List Char)
  | [] => none
  | c :: rest =>
    match
      (if c = '/' then
        let g1 := rest.takeWhile (fun d => !(d = '/'))
        if g1 = [] then none
        else
          match rest.drop g1.length with
          | '/' :: rest2 =>
            let g2 := rest2.takeWhile hexLowerChar
            if g2 = [] then none else some g2
          | _ => none
      else none) with
    | some g2 => some g2
    | none => gistScan rest

theorem gistScan_some_ne_nil {s g2 : List Char} (h : gistScan s = some g2) :
    g2 ≠ [] := by
  induction s with
  | nil => simp [gistScan] at h
  | cons c rest ih =>
    simp only [gistScan] at h
    split at h
    · rename_i heq
      split at heq
      · split at heq
        · simp at heq
        · split at heq
          · split at heq
            · simp at heq
            · cases heq
              cases h
              assumption
          · simp at heq
      · simp at heq
    · exact ih h

/-- `LinkProcessor.extractGistId`. -/
def extractGistId (url : UrlParts) : Option String :=
  (gistScan url.pathname.data).map String.mk

/-- `LinkProcessor.isFigma`. -/
def isFigma (domain : String) : Bool := jsIncludes domain "figma.com"

/-- `LinkProcessor.isMiro`. -/
def isMiro (domain : String) : Bool := jsIncludes domain "miro.com"

/-- `LinkProcessor.isGoogleMaps`: `maps.google.com`, or `google.com` with
a `/maps` pathname. -/
def isGoogleMaps (domain : String) (url : UrlParts) : Bool :=
  jsIncludes domain "maps.google.com" ||
    (jsIncludes domain "google.com" && jsIncludes url.pathname "/maps")

/-- `LinkProcessor.isVimeo`. -/
def isVimeo (domain : String) : Bool := jsIncludes domain "vimeo.com"

/-- `LinkProcessor.extractVimeoVideoId`: a slash followed by a non-empty
digit run, on the pathname. -/
def extractVimeoVideoId (url : UrlParts) : Option String :=
  (scanCapture Char.isDigit ["/".data] url.pathname.data).map String.mk

/-- Provider cascade of `convertLinkToOutlineTag` after a successful URL
parse: each rule either produces its embed tag or falls through to the
next, ending at the plain link. -/
def convertBody (domain : String) (urlObj : UrlParts) (text url : String) :
    String :=
  match (if isYouTube domain urlObj then extractYouTubeVideoId url
         else none) with
  | some videoId => "@[youtube](" ++ videoId ++ ")"
  | none =>
  match (if isTwitter domain then extractTwitterTweetId urlObj
         else none) with
  | some tweetId => "@[tweet](" ++ tweetId ++ ")"
  | none =>
  match (if isCodePen domain then extractCodePenId urlObj else none) with
  | some penId => "@[codepen](" ++ penId ++ ")"
  | none =>
  match (if isGitHubGist domain urlObj then extractGistId urlObj
         else none) with
  | some gistId => "@[gist](" ++ gistId ++ ")"
  | none =>
  if isFigma domain then "@[figma](" ++ url ++ ")"
  else if isMiro domain then "@[miro](" ++ url ++ ")"
  else if isGoogleMaps domain urlObj then "@[googlemaps](" ++ url ++ ")"
  else
  match (if isVimeo domain then extractVimeoVideoId urlObj else none) with
  | some videoId => "@[vimeo](" ++ videoId ++ ")"
  | none => "[" ++ text ++ "](" ++ url ++ ")"

/-- `LinkProcessor.convertLinkToOutlineTag`: `null` on URL parse failure,
otherwise the provider cascade. -/
def convertLinkToOutlineTag (parse : String → Option UrlParts)
    (text url : String) : Option String :=
  match parse url with
  | none => none
  | some urlObj =>
    some (convertBody (jsToLower urlObj.hostname) urlObj text url)

/-- One attempted match of the link pattern (the image pattern without
the leading bang). -/
def tryMatchLink (cs : List Char) :
    Option (List Char × List Char × List Char) :=
  match cs with
  | c1 :: rest => if c1 = '[' then tryMatchAfterBracket rest else none
  | _ => none

/-- Replacement for one link match: the converted tag, or the match
itself when conversion returns `null`. -/
def linkReplacement (parse : String → Option UrlParts)
    (text url : List Char) : List Char :=
  match convertLinkToOutlineTag parse (String.mk text) (String.mk url) with
  | some tag => tag.data
  | none => '[' :: (text ++ ']' :: ('(' :: (url ++ [')'])))

/-- Fueled global-replace scan of the link pattern. -/
def goLinks (parse : String → Option UrlParts) :
    Nat → List Char → List Char
  | 0, cs => cs
  | _ + 1, [] => []
  | fuel + 1, c :: cs =>
    match tryMatchLink (c :: cs) with
    | some (text, url, rest) =>
      linkReplacement parse text url ++ goLinks parse fuel rest
    | none => c :: goLinks parse fuel cs

/-- `LinkProcessor.processLinks`. -/
def processLinks (parse : String → Option UrlParts) (markdown : String) :
    String :=
  String.mk (goLinks parse markdown.data.length markdown.data)

theorem processLinks_single (parse : String → Option UrlParts)
    {text url : List Char} (hT : ']' ∉ text) (hU : ')' ∉ url)
    (hne : url ≠ []) :
    processLinks parse
        (String.mk ('[' :: (text ++ ']' :: ('(' :: (url ++ [')']))))) =
      String.mk (linkReplacement parse text url) := by
  unfold processLinks
  have hm : tryMatchLink
      ('[' :: (text ++ ']' :: ('(' :: (url ++ ')' :: [])))) =
      some (text, url, []) := by
    show tryMatchAfterBracket (text ++ ']' :: ('(' :: (url ++ ')' :: []))) =
      some (text, url, [])
    exact tryMatchAfterBracket_complete [] hT hU hne
  simp only [List.length_cons, goLinks, hm]
  cases h : (text ++ ']' :: ('(' :: (url ++ [')']))).length with
  | zero => simp at h
  | succ n => simp [goLinks]

end LinkProcessor

end WebClipper

namespace WebClipper

open LinkProcessor

theorem strExt {a b : String} (h : a.data = b.data) : a = b := by
  cases a; cases b; cases h; rfl

theorem strMk_ne_empty {l : List Char} (h : l ≠ []) : String.mk l ≠ "" := by
  intro hc
  apply h
  have := congrArg String.data hc
  simpa using this

theorem some_of_ite_none {c : Prop} [Decidable c] {e : Option α} {v : α}
    (h : (if c then e else none) = some v) : e = some v := by
  split at h
  · exact h
  · simp at h

theorem scanCapture_map_ne_empty {cls : Char → Bool}
    {pats : List (List Char)} {s : List Char} {v : String}
    (h : (scanCapture cls pats s).map String.mk = some v) : v ≠ "" := by
  cases hs : scanCapture cls pats s with
  | none => rw [hs] at h; simp at h
  | some cap =>
    rw [hs] at h
    simp only [Option.map_some', Option.some.injEq] at h
    rw [← h]
    exact strMk_ne_empty (scanCapture_some_ne_nil hs)

theorem extractYouTubeVideoId_ne_empty {u : String} {v : String}
    (h : extractYouTubeVideoId u = some v) : v ≠ "" := by
  unfold extractYouTubeVideoId at h
  cases h1 : scanCapture ytIdChar
      ["youtube.com/watch?v=".data, "youtu.be/".data,
        "youtube.com/embed/".data] u.data with
  | some cap =>
    rw [h1] at h
    simp only [Option.some.injEq] at h
    rw [← h]
    exact strMk_ne_empty (scanCapture_some_ne_nil h1)
  | none =>
    rw [h1] at h
    cases h2 : scanCapture ytIdChar ["youtube.com/v/".data] u.data with
    | some cap =>
      rw [h2] at h
      simp only [Option.some.injEq] at h
      rw [← h]
      exact strMk_ne_empty (scanCapture_some_ne_nil h2)
    | none => rw [h2] at h; simp at h

theorem extractGistId_ne_empty {u : UrlParts} {v : String}
    (h : extractGistId u = some v) : v ≠ "" := by
  unfold extractGistId at h
  cases hs : gistScan u.pathname.data with
  | none => rw [hs] at h; simp at h
  | some cap =>
    rw [hs] at h
    simp only [Option.map_some', Option.some.injEq] at h
    rw [← h]
    exact strMk_ne_empty (gistScan_some_ne_nil hs)

/-- Possible shapes of a `convertBody` result: the plain link, or a
well-formed embed tag of a known provider with a non-empty id. -/
theorem convertBody_shape (domain : String) (urlObj : UrlParts)
    (text url : String) (hurl : url ≠ "") :
    convertBody domain urlObj text url = "[" ++ text ++ "](" ++ url ++ ")" ∨
    ∃ p id, p ∈ (["youtube", "tweet", "codepen", "gist", "figma", "miro",
        "googlemaps", "vimeo"] : List String) ∧ id ≠ "" ∧
      convertBody domain urlObj text url = "@[" ++ p ++ "](" ++ id ++ ")" := by
  unfold convertBody
  split
  · rename_i videoId heq
    exact Or.inr ⟨"youtube", videoId, by simp,
      extractYouTubeVideoId_ne_empty (some_of_ite_none heq), rfl⟩
  split
  · rename_i tweetId heq
    exact Or.inr ⟨"tweet", tweetId, by simp,
      scanCapture_map_ne_empty (some_of_ite_none heq), rfl⟩
  split
  · rename_i penId heq
    exact Or.inr ⟨"codepen", penId, by simp,
      scanCapture_map_ne_empty (some_of_ite_none heq), rfl⟩
  split
  · rename_i gistId heq
    exact Or.inr ⟨"gist", gistId, by simp,
      extractGistId_ne_empty (some_of_ite_none heq), rfl⟩
  split
  · exact Or.inr ⟨"figma", url, by simp, hurl, rfl⟩
  split
  · exact Or.inr ⟨"miro", url, by simp, hurl, rfl⟩
  split
  · exact Or.inr ⟨"googlemaps", url, by simp, hurl, rfl⟩
  split
  · rename_i videoId heq
    exact Or.inr ⟨"vimeo", videoId, by simp,
      scanCapture_map_ne_empty (some_of_ite_none heq), rfl⟩
  · exact Or.inl rfl

/-- Claim C6 as stated is false: for the link
`[x](https://youtube.com.figma.com/a)` the YouTube provider rule matches
the domain and its id extraction fails, yet the output is not the
unchanged plain link — the cascade falls through to the Figma rule and
emits `@[figma](…)`.  The parse environment returns exactly what
`new URL` returns for this address. -/
theorem C6_counterexample :
    LinkProcessor.isYouTube (jsToLower "youtube.com.figma.com")
        ⟨"youtube.com.figma.com", "/a"⟩ = true ∧
    LinkProcessor.extractYouTubeVideoId "https://youtube.com.figma.com/a" =
      none ∧
    LinkProcessor.processLinks
        (fun u => if u = "https://youtube.com.figma.com/a" then
          some ⟨"youtube.com.figma.com", "/a"⟩ else none)
        "[x](https://youtube.com.figma.com/a)" =
      "@[figma](https://youtube.com.figma.com/a)" ∧
    ¬ LinkProcessor.processLinks
        (fun u => if u = "https://youtube.com.figma.com/a" then
          some ⟨"youtube.com.figma.com", "/a"⟩ else none)
        "[x](https://youtube.com.figma.com/a)" =
      "[x](https://youtube.com.figma.com/a)" := by
  refine ⟨by decide, by decide, by decide, by decide⟩

/-- Claim C6 (amended): for every markdown link `[text](url)` processed by
`LinkProcessor.processLinks` — `processLinks` is total, so it never
throws — (1) if the url fails to parse the output is the unchanged plain
`[text](url)`; (2) if conversion returns null or reconstructs the plain
link (in particular when no provider rule matches, or every matching
provider rule fails id extraction and no later rule matches), the output
is the unchanged plain link; and (3) any converted tag is either the
plain link or a well-formed embed tag `@[provider](id)` of one of the
eight known providers with a non-empty id — never a malformed embed
tag. -/
theorem C6_processLinks_fallthrough (parse : String → Option UrlParts)
    (text url : String) (hT : ']' ∉ text.data) (hU : ')' ∉ url.data)
    (hne : url.data ≠ []) :
    (parse url = none →
      processLinks parse ("[" ++ text ++ "](" ++ url ++ ")") =
        "[" ++ text ++ "](" ++ url ++ ")") ∧
    (convertLinkToOutlineTag parse text url = none ∨
        convertLinkToOutlineTag parse text url =
          some ("[" ++ text ++ "](" ++ url ++ ")") →
      processLinks parse ("[" ++ text ++ "](" ++ url ++ ")") =
        "[" ++ text ++ "](" ++ url ++ ")") ∧
    (∀ tag, convertLinkToOutlineTag parse text url = some tag →
      tag = "[" ++ text ++ "](" ++ url ++ ")" ∨
      ∃ p id, p ∈ (["youtube", "tweet", "codepen", "gist", "figma", "miro",
          "googlemaps", "vimeo"] : List String) ∧ id ≠ "" ∧
        tag = "@[" ++ p ++ "](" ++ id ++ ")") := by
  have hkey : ("[" ++ text ++ "](" ++ url ++ ")") =
      String.mk ('[' :: (text.data ++ ']' :: ('(' :: (url.data ++ [')'])))) := by
    apply strExt
    simp [strData_append, List.append_assoc]
  have hsingle := processLinks_single parse hT hU hne
  have hmtext : String.mk text.data = text := rfl
  have hmurl : String.mk url.data = url := rfl
  have hconv : ∀ r, convertLinkToOutlineTag parse text url = r →
      processLinks parse ("[" ++ text ++ "](" ++ url ++ ")") =
        String.mk (linkReplacement parse text.data url.data) := by
    intro r _
    rw [hkey]
    exact hsingle
  have hfall : convertLinkToOutlineTag parse text url = none ∨
      convertLinkToOutlineTag parse text url =
        some ("[" ++ text ++ "](" ++ url ++ ")") →
      processLinks parse ("[" ++ text ++ "](" ++ url ++ ")") =
        "[" ++ text ++ "](" ++ url ++ ")" := by
    intro hc
    rw [hkey, hsingle]
    unfold linkReplacement
    rw [hmtext, hmurl]
    rcases hc with hc | hc
    · rw [hc]
    · rw [hc]
      apply strExt
      simp [strData_append, List.append_assoc]
  refine ⟨?_, hfall, ?_⟩
  · intro hp
    apply hfall
    left
    unfold convertLinkToOutlineTag
    rw [hp]
  · intro tag htag
    unfold convertLinkToOutlineTag at htag
    cases hp : parse url with
    | none => rw [hp] at htag; simp at htag
    | some urlObj =>
      rw [hp] at htag
      simp only [Option.some.injEq] at htag
      rw [← htag]
      exact convertBody_shape (jsToLower urlObj.hostname) urlObj text url
        (fun hc => hne (by rw [hc]))

/-- Witness for claim C6's amended theorem: a parse environment that
always fails, at a concrete link. -/
theorem C6_witness :
    ((fun (_ : String) => (none : Option UrlParts)) "u" = none →
      processLinks (fun _ => none) ("[" ++ "t" ++ "](" ++ "u" ++ ")") =
        "[" ++ "t" ++ "](" ++ "u" ++ ")") ∧
    (convertLinkToOutlineTag (fun _ => none) "t" "u" = none ∨
        convertLinkToOutlineTag (fun _ => none) "t" "u" =
          some ("[" ++ "t" ++ "](" ++ "u" ++ ")") →
      processLinks (fun _ => none) ("[" ++ "t" ++ "](" ++ "u" ++ ")") =
        "[" ++ "t" ++ "](" ++ "u" ++ ")") ∧
    (∀ tag, convertLinkToOutlineTag (fun _ => none) "t" "u" = some tag →
      tag = "[" ++ "t" ++ "](" ++ "u" ++ ")" ∨
      ∃ p id, p ∈ (["youtube", "tweet", "codepen", "gist", "figma", "miro",
          "googlemaps", "vimeo"] : List String) ∧ id ≠ "" ∧
        tag = "@[" ++ p ++ "](" ++ id ++ ")") :=
  C6_processLinks_fallthrough (fun _ => none) "t" "u" (by decide) (by decide)
    (by decide)

end WebClipper

namespace WebClipper

/-! ## `OutlineClient.uploadImage`
(`src/features/outline_integration/client.ts`, lines 76-236)

One attempt of the `try` body performs: blob acquisition (base64 decode of
a `data:` URL, or a `fetch` whose own failures return the original URL
from the inner `catch`), the 10MB size check, the `image/` MIME check,
`attachments.create`, and the file upload.  Network results are an
explicit per-attempt environment; a thrown error carries
`error.response?.status` as an `Option Nat`.  The outer `catch` returns
the original URL on 401, retries on 429 while `retryCount < 3`, and
returns the original URL otherwise.  The returned pair also collects the
backoff delays slept before each retry. -/

namespace OutlineClient

open LinkProcessor

/-- Outcome of a completed `fetch` of the image bytes. -/
structure FetchResult where
  ok : Bool
  blobSize : Nat
  contentType : Option String
deriving DecidableEq

/-- Fields of the `attachments.create` response the upload uses. -/
structure CreateData where
  formFields : List (String × String)
  attachmentId : Option String
  uploadUrl : String
  attachmentUrl : String
deriving DecidableEq

instance {e a : Type} [DecidableEq e] [DecidableEq a] :
    DecidableEq (Except e a) := fun x y =>
  match x, y with
  | Except.ok v, Except.ok w =>
    if h : v = w then isTrue (by rw [h])
    else isFalse (fun hc => h (by cases hc; rfl))
  | Except.error v, Except.error w =>
    if h : v = w then isTrue (by rw [h])
    else isFalse (fun hc => h (by cases hc; rfl))
  | Except.ok _, Except.error _ => isFalse (fun hc => by cases hc)
  | Except.error _, Except.ok _ => isFalse (fun hc => by cases hc)

/-- Network environment of one upload attempt.  `fetchResult = none`
models the `fetch` or `blob()` promise rejecting (CORS/CSP); the
`Except` errors model axios throwing with `error.response?.status`. -/
structure AttemptEnv where
  fetchResult : Option FetchResult
  createResult : Except (Option Nat) CreateData
  uploadResult : Except (Option Nat) Nat
deriving DecidableEq

/-- JavaScript `contentType.split(';')[0].trim()`. -/
def mimeHead (s : String) : String :=
  jsTrim (String.mk (s.data.takeWhile (fun c => !(c = ';'))))

/-- Capture of `/data:([^;]+)/` on the part before the first comma, with
the `'image/png'` fallback. -/
def dataUrlMime (header : String) : String :=
  match scanCapture (fun c => !(c = ';')) ["data:".data] header.data with
  | some cap => String.mk cap
  | none => "image/png"

/-- The `[header, base64Data]` destructuring of `imageUrl.split(',')`:
the second component sits between the first and second commas, and is
absent (`undefined`, on which `atob` throws) when the URL has no comma. -/
def dataUrlBase64 (imageUrl : String) : Option String :=
  if sub [','] imageUrl.data then
    some (String.mk
      (((imageUrl.data.dropWhile (fun c => !(c = ','))).drop 1).takeWhile
        (fun c => !(c = ','))))
  else none

/-- One run of the `try` body of `uploadImage`.  `atobLen` gives the
decoded byte count of a base64 payload (`none` = `atob` throws);
`generateFileName` abstracts the private filename helper, which no claim
constrains.  `Except.ok` is a `return` (note the inner download `catch`
returns the *original* URL as a non-error), `Except.error st` is a throw
reaching the outer `catch` with `error.response?.status = st`. -/
def attemptBody (generateFileName : String → String → String)
    (atobLen : String → Option Nat) (env : AttemptEnv)
    (apiUrl imageUrl : String) : Except (Option Nat) String :=
  let acquired : Except (Option Nat) (Option (Nat × String)) :=
    if pre "data:".data imageUrl.data then
      let header := String.mk (imageUrl.data.takeWhile (fun c => !(c = ',')))
      let mimeType := dataUrlMime header
      match dataUrlBase64 imageUrl with
      | none => Except.error none
      | some base64Data =>
        match atobLen base64Data with
        | none => Except.error none
        | some len => Except.ok (some (len, mimeType))
    else
      match env.fetchResult with
      | none => Except.ok none
      | some fr =>
        if !fr.ok then Except.ok none
        else
          Except.ok (some (fr.blobSize,
            mimeHead (fr.contentType.getD "image/png")))
  match acquired with
  | Except.error st => Except.error st
  | Except.ok none => Except.ok imageUrl
  | Except.ok (some (blobSize, mimeType0)) =>
    if blobSize > 10 * 1024 * 1024 then Except.error none
    else
      let mimeType := mimeHead mimeType0
      if !(pre "image/".data mimeType.data) then Except.error none
      else
        let _fileName := generateFileName imageUrl mimeType
        match env.createResult with
        | Except.error st => Except.error st
        | Except.ok d =>
          let _uploadUrl :=
            if pre "http".data d.uploadUrl.data then d.uploadUrl
            else if pre "/".data d.uploadUrl.data then apiUrl ++ d.uploadUrl
            else apiUrl ++ "/" ++ d.uploadUrl
          match env.uploadResult with
          | Except.error st => Except.error st
          | Except.ok status =>
            if !(status = 200 || status = 201 || status = 204) then
              Except.error none
            else
              Except.ok
                (if pre "http".data d.attachmentUrl.data then d.attachmentUrl
                 else apiUrl ++ d.attachmentUrl)

/-- The `catch`-and-retry wrapper of `uploadImage`, fueled by the number
of attempts left (4 suffices: `retryCount` 0..3).  Returns the resolved
URL and the list of backoff delays slept, in order. -/
def uploadImageGo (generateFileName : String → String → String)
    (atobLen : String → Option Nat) (env : Nat → AttemptEnv)
    (apiUrl imageUrl : String) : Nat → Nat → String × List Nat
  | _, 0 => (imageUrl, [])
  | retryCount, fuel + 1 =>
    let retryDelay := 1000 * 2 ^ retryCount
    match attemptBody generateFileName atobLen (env retryCount)
        apiUrl imageUrl with
    | Except.ok s => (s, [])
    | Except.error st =>
      if st = some 401 then (imageUrl, [])
      else if st = some 429 ∧ retryCount < 3 then
        let backoffDelay := retryDelay * 2 ^ retryCount
        let next := uploadImageGo generateFileName atobLen env apiUrl
          imageUrl (retryCount + 1) fuel
        (next.1, backoffDelay :: next.2)
      else (imageUrl, [])

/-- `OutlineClient.uploadImage` called at `retryCount = 0`. -/
def uploadImage (generateFileName : String → String → String)
    (atobLen : String → Option Nat) (env : Nat → AttemptEnv)
    (apiUrl imageUrl : String) : String × List Nat :=
  uploadImageGo generateFileName atobLen env apiUrl imageUrl 0 4

/-- Filename helper for concrete runs: its value is irrelevant to every
claim. -/
def demoGfn (_url _mime : String) : String := "image.png"

/-- Base64 length oracle for concrete runs. -/
def demoAtob (_s : String) : Option Nat := some 64

/-- A fully successful attempt environment. -/
def demoOkEnv : AttemptEnv where
  fetchResult :=
    some { ok := true, blobSize := 2048, contentType := some "image/png" }
  createResult :=
    Except.ok { formFields := [], attachmentId := none,
                uploadUrl := "/api/files.create",
                attachmentUrl := "/api/files/a.png" }
  uploadResult := Except.ok 200

/-- An attempt environment rate-limited at `attachments.create`. -/
def demo429Env : AttemptEnv :=
  { demoOkEnv with createResult := Except.error (some 429) }

/-- Three 429 responses followed by a success. -/
def demoRetryEnv (k : Nat) : AttemptEnv :=
  if k < 3 then demo429Env else demoOkEnv

/-- Rate-limited on every attempt. -/
def demoAlways429Env (_k : Nat) : AttemptEnv := demo429Env

end OutlineClient

open OutlineClient

/-- Claim C1 as stated is false in its delay schedule: the code computes
`retryDelay = 1000 * 2^retryCount` and then sleeps
`backoffDelay = retryDelay * 2^retryCount`, so the delays quadruple —
1s, 4s, 16s — not double to 1s, 2s, 4s.  With three 429 responses
followed by a 200 the call does succeed on the 4th attempt with the
hosted URL, but after sleeping `[1000, 4000, 16000]` ms. -/
theorem C1_counterexample :
    (uploadImage demoGfn demoAtob demoRetryEnv "https://outline.example"
        "http://img.example/pic.png").1 =
      "https://outline.example/api/files/a.png" ∧
    (uploadImage demoGfn demoAtob demoRetryEnv "https://outline.example"
        "http://img.example/pic.png").2 = [1000, 4000, 16000] ∧
    ¬ (uploadImage demoGfn demoAtob demoRetryEnv "https://outline.example"
        "http://img.example/pic.png").2 = [1000, 2000, 4000] := by
  refine ⟨by decide, by decide, by decide⟩

/-- Claim C1 (amended): on HTTP 429 `uploadImage` retries the single
image with exponential backoff starting at 1s and *quadrupling* each
attempt, up to 3 retry attempts, so the delays are 1s, 4s, 16s: given
three 429 responses followed by a success it succeeds on the 4th attempt
and returns the hosted URL; given four consecutive 429 responses it
returns the original URL unchanged. -/
theorem C1_uploadImage_retry (generateFileName : String → String → String)
    (atobLen : String → Option Nat) (env : Nat → AttemptEnv)
    (apiUrl imageUrl : String)
    (h0 : attemptBody generateFileName atobLen (env 0) apiUrl imageUrl =
      Except.error (some 429))
    (h1 : attemptBody generateFileName atobLen (env 1) apiUrl imageUrl =
      Except.error (some 429))
    (h2 : attemptBody generateFileName atobLen (env 2) apiUrl imageUrl =
      Except.error (some 429)) :
    (∀ hosted,
      attemptBody generateFileName atobLen (env 3) apiUrl imageUrl =
        Except.ok hosted →
      uploadImage generateFileName atobLen env apiUrl imageUrl =
        (hosted, [1000, 4000, 16000])) ∧
    (attemptBody generateFileName atobLen (env 3) apiUrl imageUrl =
        Except.error (some 429) →
      uploadImage generateFileName atobLen env apiUrl imageUrl =
        (imageUrl, [1000, 4000, 16000])) := by
  constructor
  · intro hosted h3
    simp [uploadImage, uploadImageGo, h0, h1, h2, h3]
  · intro h3
    simp [uploadImage, uploadImageGo, h0, h1, h2, h3]

/-- Witness for claim C1's amended theorem: the concrete
three-429s-then-200 environment. -/
theorem C1_witness :
    uploadImage demoGfn demoAtob demoRetryEnv "https://outline.example"
        "http://img.example/pic.png" =
      ("https://outline.example/api/files/a.png", [1000, 4000, 16000]) :=
  (C1_uploadImage_retry demoGfn demoAtob demoRetryEnv
      "https://outline.example" "http://img.example/pic.png"
      (by decide) (by decide) (by decide)).1
    "https://outline.example/api/files/a.png" (by decide)

/-- Claim C4: `uploadImage` never throws and contains every per-image
failure: a rejected download resolves with the original URL, as do an
oversized blob, a non-image MIME type, an HTTP 401 (non-retryable), and
any other error status except a retryable 429; in general the call
resolves either with the original URL or with the value some attempt's
body returned. -/
theorem C4_uploadImage_never_rejects
    (generateFileName : String → String → String)
    (atobLen : String → Option Nat) (env : Nat → AttemptEnv)
    (apiUrl imageUrl : String) :
    ((env 0).fetchResult = none → pre "data:".data imageUrl.data = false →
      uploadImage generateFileName atobLen env apiUrl imageUrl =
        (imageUrl, [])) ∧
    (∀ fr, (env 0).fetchResult = some fr → fr.ok = true →
      fr.blobSize > 10 * 1024 * 1024 →
      pre "data:".data imageUrl.data = false →
      uploadImage generateFileName atobLen env apiUrl imageUrl =
        (imageUrl, [])) ∧
    (∀ fr, (env 0).fetchResult = some fr → fr.ok = true →
      ¬ fr.blobSize > 10 * 1024 * 1024 →
      pre "image/".data
        (mimeHead (mimeHead (fr.contentType.getD "image/png"))).data =
          false →
      pre "data:".data imageUrl.data = false →
      uploadImage generateFileName atobLen env apiUrl imageUrl =
        (imageUrl, [])) ∧
    (∀ st, attemptBody generateFileName atobLen (env 0) apiUrl imageUrl =
        Except.error st → st ≠ some 429 →
      uploadImage generateFileName atobLen env apiUrl imageUrl =
        (imageUrl, [])) ∧
    ((uploadImage generateFileName atobLen env apiUrl imageUrl).1 =
        imageUrl ∨
      ∃ k, k ≤ 3 ∧
        attemptBody generateFileName atobLen (env k) apiUrl imageUrl =
          Except.ok
            (uploadImage generateFileName atobLen env apiUrl imageUrl).1) := by
  have hstop : ∀ st, attemptBody generateFileName atobLen (env 0) apiUrl
      imageUrl = Except.error st → st ≠ some 429 →
      uploadImage generateFileName atobLen env apiUrl imageUrl =
        (imageUrl, []) := by
    intro st hb hne
    by_cases h401 : st = some 401
    · simp [uploadImage, uploadImageGo, hb, h401]
    · simp [uploadImage, uploadImageGo, hb, h401, hne]
  refine ⟨?_, ?_, ?_, hstop, ?_⟩
  · intro hf hd
    have hb : attemptBody generateFileName atobLen (env 0) apiUrl imageUrl =
        Except.ok imageUrl := by
      unfold attemptBody
      simp [hd, hf]
    simp [uploadImage, uploadImageGo, hb]
  · intro fr hf hok hsize hd
    have hb : attemptBody generateFileName atobLen (env 0) apiUrl imageUrl =
        Except.error none := by
      unfold attemptBody
      simp [hd, hf, hok, hsize]
    exact hstop none hb (by simp)
  · intro fr hf hok hsize hmime hd
    have hb : attemptBody generateFileName atobLen (env 0) apiUrl imageUrl =
        Except.error none := by
      unfold attemptBody
      simp [hd, hf, hok, hsize, hmime]
    exact hstop none hb (by simp)
  · have general : ∀ fuel retryCount,
        (uploadImageGo generateFileName atobLen env apiUrl imageUrl
          retryCount fuel).1 = imageUrl ∨
        ∃ k, retryCount ≤ k ∧ k < retryCount + fuel ∧
          attemptBody generateFileName atobLen (env k) apiUrl imageUrl =
            Except.ok (uploadImageGo generateFileName atobLen env apiUrl
              imageUrl retryCount fuel).1 := by
      intro fuel
      induction fuel with
      | zero => intro retryCount; exact Or.inl rfl
      | succ n ih =>
        intro retryCount
        cases hb : attemptBody generateFileName atobLen (env retryCount)
            apiUrl imageUrl with
        | ok s =>
          right
          exact ⟨retryCount, by omega, by omega, by
            simp [uploadImageGo, hb]⟩
        | error st =>
          by_cases h401 : st = some 401
          · left; simp [uploadImageGo, hb, h401]
          · by_cases h429 : st = some 429 ∧ retryCount < 3
            · rcases ih (retryCount + 1) with hl | ⟨k, hk1, hk2, hk3⟩
              · left; simp [uploadImageGo, hb, h401, h429, hl]
              · right
                refine ⟨k, by omega, by omega, ?_⟩
                simp [uploadImageGo, hb, h401, h429, hk3]
            · left; simp [uploadImageGo, hb, h401, h429]
    rcases general 4 0 with hl | ⟨k, -, hk2, hk3⟩
    · exact Or.inl hl
    · exact Or.inr ⟨k, by omega, hk3⟩

/-- Witness for claim C4's theorem: a download that rejects resolves the
call with the original URL, and the fully successful environment
resolves with an attempt's returned URL. -/
theorem C4_witness :
    uploadImage demoGfn demoAtob
        (fun _ => { demoOkEnv with fetchResult := none })
        "https://outline.example" "http://img.example/pic.png" =
      ("http://img.example/pic.png", []) :=
  (C4_uploadImage_never_rejects demoGfn demoAtob
      (fun _ => { demoOkEnv with fetchResult := none })
      "https://outline.example" "http://img.example/pic.png").1
    (by decide) (by decide)

end WebClipper

namespace WebClipper

/-! ## `OutlineClient.replaceImageUrlInContent`
(`src/features/outline_integration/client.ts`, lines 684-813)

The method first tries a plain `split(originalUrl).join(newUrl)` and
returns immediately when that changed the content; otherwise it applies
the markdown-image replace and the two HTML `src` replaces.  The
remaining bulk of the source lines is `console.log` diagnostics with no
effect on the result. -/

namespace OutlineClient

/-- JavaScript `s.split(pat)`, fueled (a step consumes at least one
character; splitting on the empty string separates every character). -/
def splitOnAux (pat : List Char) : Nat → List Char → List (List Char)
  | 0, cs => [cs]
  | fuel + 1, cs =>
    match cs with
    | [] => [[]]
    | c :: rest =>
      if pat ≠ [] && pre pat cs then
        [] :: splitOnAux pat fuel (cs.drop pat.length)
      else
        match splitOnAux pat fuel rest with
        | [] => [[c]]
        | seg :: segs => (c :: seg) :: segs

/-- JavaScript `content.split(originalUrl).join(newUrl)`. -/
def replaceAllStr (s pat new : String) : String :=
  ContentExtractor.jsJoin new
    ((splitOnAux pat.data s.data.length s.data).map String.mk)

/-- Attempted match of the markdown-image pattern with the *literal*
escaped URL, `!\[([^\]]*)\]\(URL\)`: returns the alt capture and the
rest. -/
def tryMatchMdUrl (url : List Char) (cs : List Char) :
    Option (List Char × List Char) :=
  match cs with
  | c1 :: c2 :: rest =>
    if c1 = '!' then
      if c2 = '[' then
        match takeUntil ']' rest with
        | none => none
        | some (alt, rest1) =>
          match rest1 with
          | c3 :: rest2 =>
            if c3 = '(' then
              if pre url rest2 then
                match rest2.drop url.length with
                | c4 :: rest3 => if c4 = ')' then some (alt, rest3) else none
                | [] => none
              else none
            else none
          | [] => none
      else none
    else none
  | _ => none

/-- Global replace of the markdown-image pattern, rewriting the matched
URL to `new` and keeping the alt text. -/
def goMd (url new : List Char) : Nat → List Char → List Char
  | 0, cs => cs
  | _ + 1, [] => []
  | fuel + 1, c :: cs =>
    match tryMatchMdUrl url (c :: cs) with
    | some (alt, rest) =>
      '!' :: '[' :: (alt ++ ']' :: ('(' :: (new ++ [')']))) ++
        goMd url new fuel rest
    | none => c :: goMd url new fuel cs

/-- Class `\s` of JavaScript regexes (ASCII part). -/
def wsChar (c : Char) : Bool :=
  c = ' ' || c = '\t' || c = '\n' || c = '\r' || c = '\x0c' || c = '\x0b'

/-- Class `["']`. -/
def quoteChar (c : Char) : Bool := c = '"' || c = '\''

/-- Attempted match of `\ssrc=["']URL["']` at the current offset: the
whitespace/src/opening-quote prefix, the closing quote, and the rest. -/
def srcHere (url : List Char) (t : List Char) :
    Option (List Char × Char × List Char) :=
  match t with
  | [] => none
  | c :: rest =>
    if wsChar c && pre "src=".data rest then
      match rest.drop 4 with
      | [] => none
      | q1 :: rest2 =>
        if quoteChar q1 && pre url rest2 then
          match rest2.drop url.length with
          | [] => none
          | q2 :: rest3 =>
            if quoteChar q2 then
              some (c :: 's' :: 'r' :: 'c' :: '=' :: [q1], q2, rest3)
            else none
        else none
    else none

/-- Greedy search for `[^>]*\ssrc=["']URL["']` after `<img`: the longest
`[^>]*` middle wins, as with a greedy JavaScript class.  Returns the
middle, the matched `\ssrc=["']` prefix, the closing quote and the
rest. -/
def greedyFind (url : List Char) :
    List Char → Option (List Char × List Char × Char × List Char)
  | [] => none
  | c :: rest =>
    if c = '>' then none
    else
      match greedyFind url rest with
      | some (middle, sp, q2, r3) => some (c :: middle, sp, q2, r3)
      | none =>
        match srcHere url (c :: rest) with
        | some (sp, q2, r3) => some ([], sp, q2, r3)
        | none => none

/-- Global replace of `(<img[^>]*\ssrc=["'])URL(["'][^>]*>)` keeping the
captured prefix and suffix around the new URL. -/
def goHtml1 (url new : List Char) : Nat → List Char → List Char
  | 0, cs => cs
  | _ + 1, [] => []
  | fuel + 1, c :: cs =>
    if pre "<img".data (c :: cs) then
      match greedyFind url ((c :: cs).drop 4) with
      | some (middle, sp, q2, r3) =>
        match takeUntil '>' r3 with
        | some (gap, rest4) =>
          '<' :: 'i' :: 'm' :: 'g' :: (middle ++ sp ++ new ++
            q2 :: (gap ++ '>' :: goHtml1 url new fuel rest4))
        | none => c :: goHtml1 url new fuel cs
      | none => c :: goHtml1 url new fuel cs
    else c :: goHtml1 url new fuel cs

/-- Match of `src=["']URL["']` exactly at the current offset, returning
the rest. -/
def srcEqAt (url : List Char) (t : List Char) : Option (List Char) :=
  if pre "src=".data t then
    match t.drop 4 with
    | [] => none
    | q1 :: rest2 =>
      if quoteChar q1 && pre url rest2 then
        match rest2.drop url.length with
        | [] => none
        | q2 :: rest3 => if quoteChar q2 then some rest3 else none
      else none
  else none

/-- Global replace of `<img\s+src=["']URL["']\s*>` with
`<img src="NEW">`. -/
def goHtml2 (url new : List Char) : Nat → List Char → List Char
  | 0, cs => cs
  | _ + 1, [] => []
  | fuel + 1, c :: cs =>
    (if pre "<img".data (c :: cs) then
      let t := (c :: cs).drop 4
      let ws := t.takeWhile wsChar
      if ws = [] then none
      else
        match srcEqAt url (t.drop ws.length) with
        | some r3 =>
          let ws2 := r3.takeWhile wsChar
          match r3.drop ws2.length with
          | gt :: rest4 => if gt = '>' then some rest4 else none
          | [] => none
        | none => none
    else none).elim
      (c :: goHtml2 url new fuel cs)
      (fun rest4 =>
        ('<' :: 'i' :: 'm' :: 'g' :: ' ' :: 's' :: 'r' :: 'c' :: '=' ::
          '"' :: (new ++ '"' :: '>' :: goHtml2 url new fuel rest4)))

/-- Steps 2 and 3 of `replaceImageUrlInContent`: markdown-image replace,
then the two HTML `src` replaces, in source order. -/
def laterReplaces (content originalUrl newUrl : String) : String :=
  let md := String.mk
    (goMd originalUrl.data newUrl.data content.data.length content.data)
  let h1 := String.mk
    (goHtml1 originalUrl.data newUrl.data md.data.length md.data)
  String.mk (goHtml2 originalUrl.data newUrl.data h1.data.length h1.data)

/-- `OutlineClient.replaceImageUrlInContent`. -/
def replaceImageUrlInContent (content originalUrl newUrl : String) :
    String :=
  if jsIncludes content originalUrl then
    let r := replaceAllStr content originalUrl newUrl
    if ¬ (r = content) then r
    else laterReplaces r originalUrl newUrl
  else laterReplaces content originalUrl newUrl

end OutlineClient

open OutlineClient

/-- Claim C5 as stated is false: the method has no path-only fallback.
For an absolute original URL whose path component occurs in the body
(inside a markdown image), the claim's fallback step would rewrite it,
but the code returns the content unchanged. -/
theorem C5_counterexample :
    jsIncludes "![a](/images/pic.png)" "/images/pic.png" = true ∧
    jsIncludes "![a](/images/pic.png)"
      "https://example.com/images/pic.png" = false ∧
    replaceImageUrlInContent "![a](/images/pic.png)"
        "https://example.com/images/pic.png" "https://host/new.png" =
      "![a](/images/pic.png)" := by
  refine ⟨by decide, by decide, by decide⟩

/-- Claim C5 (amended): after a successful upload
`replaceImageUrlInContent` applies, in order: an exact substring replace
of every occurrence (`split(url).join(newUrl)`) which returns
immediately when it changed the body; otherwise the
markdown-image-pattern replace followed by the HTML `src`-attribute
replaces.  No path-only fallback for absolute URLs is performed. -/
theorem C5_replaceImageUrlInContent_order (content originalUrl newUrl :
    String) :
    (jsIncludes content originalUrl = true →
      replaceAllStr content originalUrl newUrl ≠ content →
      replaceImageUrlInContent content originalUrl newUrl =
        replaceAllStr content originalUrl newUrl) ∧
    (jsIncludes content originalUrl = false →
      replaceImageUrlInContent content originalUrl newUrl =
        laterReplaces content originalUrl newUrl) := by
  constructor
  · intro hin hne
    simp [replaceImageUrlInContent, hin, hne]
  · intro hout
    simp [replaceImageUrlInContent, hout]

/-- Witness for claim C5's amended theorem: both branches at concrete
bodies. -/
theorem C5_witness :
    replaceImageUrlInContent "see https://a.example/x.png here"
        "https://a.example/x.png" "https://o.example/y.png" =
      replaceAllStr "see https://a.example/x.png here"
        "https://a.example/x.png" "https://o.example/y.png" :=
  (C5_replaceImageUrlInContent_order "see https://a.example/x.png here"
      "https://a.example/x.png" "https://o.example/y.png").1
    (by decide) (by decide)

end WebClipper

namespace WebClipper

/-! ## `OutlineClient.processImagesInContent`
(`src/features/outline_integration/client.ts`, lines 419-678)

The method filters the candidate images (skipping the filter entirely on
GitHub pages), limits the list, then uploads sequentially: before each
image it reads the persisted `shouldStop` flag (modelled by `stop`,
indexed by the loop counter, consistent with `updateProgress` preserving
`shouldStop`), skips images with an empty `originalUrl`, calls
`uploadImage` (modelled by `upload`), and on a changed URL rewrites the
body with `replaceImageUrlInContent`.  The result is the rewritten body
together with the list of image URLs for which an upload network call was
made, in order. -/

/-- The fields of an `ImageInfo` candidate that the method reads
(`alt` and the rest only feed `console.log`). -/
structure ImageInfo where
  originalUrl : String
  markdownUrl : Option String
deriving DecidableEq

namespace OutlineClient

/-- `img.markdownUrl || img.originalUrl` with JavaScript truthiness: an
empty `markdownUrl` also falls back to `originalUrl`. -/
def urlToCheck (img : ImageInfo) : String :=
  match img.markdownUrl with
  | some m => if m = "" then img.originalUrl else m
  | none => img.originalUrl

/-- Boolean search for a predicate over every suffix of a character list
(the position scan of a JavaScript regex `test`). -/
def anySuffix (p : List Char → Bool) : List Char → Bool
  | [] => p []
  | c :: rest => p (c :: rest) || anySuffix p rest

/-- Inner search of `htmlImgPattern1` after `<img`: inside the `[^>]*`
run, a `\ssrc=["']URL["']` match followed by a later `>`. -/
def html1Inner (url : List Char) : List Char → Bool
  | [] => false
  | c :: rest =>
    if c = '>' then false
    else
      (match srcHere url (c :: rest) with
       | some (_, _, r3) => sub ['>'] r3
       | none => false) || html1Inner url rest

/-- Test of `<img[^>]*\ssrc=["']URL["'][^>]*>`. -/
def htmlPattern1Test (content url : List Char) : Bool :=
  anySuffix (fun s => pre "<img".data s && html1Inner url (s.drop 4)) content

/-- Test of `<img\s+src=["']URL["'][^>]*>`. -/
def htmlPattern2Test (content url : List Char) : Bool :=
  anySuffix (fun s =>
    pre "<img".data s &&
      (let t := s.drop 4
       let ws := t.takeWhile wsChar
       !(ws = []) &&
         (match srcEqAt url (t.drop ws.length) with
          | some r3 => sub ['>'] r3
          | none => false))) content

/-- Test of `src=["']URL["']`. -/
def htmlPattern3Test (content url : List Char) : Bool :=
  anySuffix (fun s => (srcEqAt url s).isSome) content

/-- Test of the markdown image pattern with the literal URL. -/
def markdownPatternTest (content url : List Char) : Bool :=
  anySuffix (fun s => (tryMatchMdUrl url s).isSome) content

/-- The filter predicate of `processImagesInContent`: direct substring,
then the three HTML `src` patterns, then the markdown image pattern. -/
def isInContentCheck (content url : String) : Bool :=
  jsIncludes content url ||
    (htmlPattern1Test content.data url.data ||
      htmlPattern2Test content.data url.data ||
      htmlPattern3Test content.data url.data) ||
    markdownPatternTest content.data url.data

/-- The GitHub bypass guard: the body mentions `github.com` and some
candidate is a `camo.githubusercontent.com` proxy image. -/
def isGitHubPage (content : String) (images : List ImageInfo) : Bool :=
  jsIncludes content "github.com" &&
    images.any (fun img =>
      jsIncludes img.originalUrl "camo.githubusercontent.com")

/-- The filtered candidate list (`contentImages`): the full list on
GitHub pages, otherwise only images found in the body. -/
def contentImagesOf (content : String) (images : List ImageInfo) :
    List ImageInfo :=
  if isGitHubPage content images then images
  else images.filter (fun img => isInContentCheck content (urlToCheck img))

/-- `imagesToProcess`: `contentImages.slice(0, maxImages)` with
`maxImages = contentImages.length || 150`. -/
def imagesToProcessOf (content : String) (images : List ImageInfo) :
    List ImageInfo :=
  let contentImages := contentImagesOf content images
  let maxImages := if contentImages.length = 0 then 150
    else contentImages.length
  contentImages.take maxImages

/-- The sequential upload loop.  `upload i u` is the URL
`uploadImage(u)` resolves with at iteration `i`; `stop i` is the
persisted `shouldStop` flag as read before iteration `i`.  Returns the
rewritten body and the upload calls made, in order. -/
def processLoop (upload : Nat → String → String) (stop : Nat → Bool) :
    Nat → String → List ImageInfo → String × List String
  | _, content, [] => (content, [])
  | i, content, image :: rest =>
    if stop i then (content, [])
    else if image.originalUrl = "" then
      processLoop upload stop (i + 1) content rest
    else
      let outlineUrl := upload i image.originalUrl
      let next :=
        if ¬ (outlineUrl = image.originalUrl) then
          processLoop upload stop (i + 1)
            (replaceImageUrlInContent content (urlToCheck image) outlineUrl)
            rest
        else processLoop upload stop (i + 1) content rest
      (next.1, image.originalUrl :: next.2)

/-- `OutlineClient.processImagesInContent`. -/
def processImagesInContent (upload : Nat → String → String)
    (stop : Nat → Bool) (content : String) (images : List ImageInfo) :
    String × List String :=
  processLoop upload stop 0 content (imagesToProcessOf content images)

theorem imagesToProcessOf_no_github {content : String}
    {images : List ImageInfo} (h : isGitHubPage content images = false) :
    imagesToProcessOf content images =
      images.filter (fun img => isInContentCheck content (urlToCheck img)) := by
  unfold imagesToProcessOf contentImagesOf
  rw [h]
  simp only [Bool.false_eq_true, if_false]
  split
  · rename_i hlen
    rw [List.length_eq_zero] at hlen
    simp [hlen]
  · exact List.take_length _

theorem processLoop_calls_sub (upload : Nat → String → String)
    (stop : Nat → Bool) :
    ∀ (l : List ImageInfo) (i : Nat) (content : String),
      ∀ u ∈ (processLoop upload stop i content l).2,
        ∃ im ∈ l, u = im.originalUrl := by
  intro l
  induction l with
  | nil => intro i content u hu; simp [processLoop] at hu
  | cons image rest ih =>
    intro i content u hu
    simp only [processLoop] at hu
    split at hu
    · simp at hu
    · split at hu
      · obtain ⟨im, him, hu⟩ := ih (i + 1) content u hu
        exact ⟨im, by simp [him], hu⟩
      · simp only [List.mem_cons] at hu
        rcases hu with rfl | hu
        · exact ⟨image, by simp, rfl⟩
        · split at hu
          · obtain ⟨im, him, hu⟩ := ih (i + 1) _ u hu
            exact ⟨im, by simp [him], hu⟩
          · obtain ⟨im, him, hu⟩ := ih (i + 1) content u hu
            exact ⟨im, by simp [him], hu⟩

end OutlineClient

open OutlineClient

/-- Concrete GitHub proxy image candidate. -/
def camoImg : ImageInfo where
  originalUrl := "https://camo.githubusercontent.com/abc"
  markdownUrl := none

/-- Concrete candidate whose URL occurs in the demo body. -/
def imgA : ImageInfo where
  originalUrl := "https://a.example/x.png"
  markdownUrl := none

/-- Concrete candidate whose URL does not occur in the demo body. -/
def imgB : ImageInfo where
  originalUrl := "https://b.example/y.png"
  markdownUrl := none

/-- Claim C2 as stated is false: on a GitHub page (body mentioning
`github.com` with a `camo.githubusercontent.com` candidate) the
appears-in-body filter is skipped, and an image found by no matching
strategy is still passed to the upload step. -/
theorem C2_counterexample :
    isGitHubPage "github.com" [camoImg] = true ∧
    isInContentCheck "github.com" (urlToCheck camoImg) = false ∧
    (processImagesInContent (fun _ u => u) (fun _ => false) "github.com"
        [camoImg]).2 = ["https://camo.githubusercontent.com/abc"] := by
  refine ⟨by decide, by decide, by decide⟩

/-- Claim C2 (amended): when the GitHub bypass does not apply, an
`ImageInfo` reaches the upload list only if its `markdownUrl` (or, when
absent or empty, its `originalUrl`) is found in the body by at least one
matching strategy — exact substring, one of the HTML `src` patterns, or
the markdown image pattern; an `ImageInfo` found by no strategy is
dropped, and every upload call is for a kept image. -/
theorem C2_filter_only_found (content : String) (images : List ImageInfo)
    (upload : Nat → String → String) (stop : Nat → Bool) (img : ImageInfo)
    (hng : isGitHubPage content images = false) :
    (img ∈ imagesToProcessOf content images →
      isInContentCheck content (urlToCheck img) = true) ∧
    (isInContentCheck content (urlToCheck img) = false →
      img ∉ imagesToProcessOf content images) ∧
    (∀ u ∈ (processImagesInContent upload stop content images).2,
      ∃ im ∈ imagesToProcessOf content images, u = im.originalUrl) := by
  rw [imagesToProcessOf_no_github hng]
  refine ⟨?_, ?_, ?_⟩
  · intro hmem
    exact (List.mem_filter.mp hmem).2
  · intro hnot hmem
    rw [(List.mem_filter.mp hmem).2] at hnot
    simp at hnot
  · intro u hu
    unfold processImagesInContent at hu
    rw [imagesToProcessOf_no_github hng] at hu
    exact processLoop_calls_sub upload stop _ 0 content u hu

/-- Witness for claim C2's amended theorem: a body containing one of two
candidate URLs. -/
theorem C2_witness :
    (imgA ∈ imagesToProcessOf "see https://a.example/x.png" [imgA, imgB] →
      isInContentCheck "see https://a.example/x.png"
        (urlToCheck imgA) = true) ∧
    (isInContentCheck "see https://a.example/x.png"
        (urlToCheck imgA) = false →
      imgA ∉ imagesToProcessOf "see https://a.example/x.png" [imgA, imgB]) ∧
    (∀ u ∈ (processImagesInContent (fun _ u => u) (fun _ => false)
        "see https://a.example/x.png" [imgA, imgB]).2,
      ∃ im ∈ imagesToProcessOf "see https://a.example/x.png" [imgA, imgB],
        u = im.originalUrl) :=
  C2_filter_only_found "see https://a.example/x.png" [imgA, imgB]
    (fun _ u => u) (fun _ => false) imgA (by decide)

end WebClipper

namespace WebClipper

namespace OutlineClient

theorem processLoop_stop_eq (upload : Nat → String → String)
    (stop : Nat → Bool) (k : Nat) (hb : ∀ j, j < k → stop j = false)
    (hk : stop k = true) :
    ∀ (l : List ImageInfo) (i : Nat) (content : String), i ≤ k →
      processLoop upload stop i content l =
        processLoop upload (fun _ => false) i content (l.take (k - i)) := by
  intro l
  induction l with
  | nil => intro i content _; simp [processLoop]
  | cons image rest ih =>
    intro i content hik
    by_cases hike : i = k
    · subst hike
      rw [show i - i = 0 from by omega]
      simp [processLoop, hk]
    · have hsi : stop i = false := hb i (by omega)
      have htake : (image :: rest).take (k - i) =
          image :: rest.take (k - (i + 1)) := by
        rw [show k - i = (k - (i + 1)) + 1 from by omega]
        rfl
      rw [htake]
      simp only [processLoop, hsi, Bool.false_eq_true, if_false]
      by_cases hurl : image.originalUrl = ""
      · simp only [hurl, if_pos rfl]
        exact ih (i + 1) content (by omega)
      · simp only [hurl, if_false]
        rw [ih (i + 1) content (by omega),
          ih (i + 1) (replaceImageUrlInContent content (urlToCheck image)
            (upload i image.originalUrl)) (by omega)]

theorem processLoop_calls_nostop (upload : Nat → String → String)
    (stop : Nat → Bool) (hstop : ∀ j, stop j = false) :
    ∀ (l : List ImageInfo) (i : Nat) (content : String),
      (processLoop upload stop i content l).2 =
        (l.filter (fun img => !(img.originalUrl = ""))).map
          (fun img => img.originalUrl) := by
  intro l
  induction l with
  | nil => intro i content; simp [processLoop]
  | cons image rest ih =>
    intro i content
    simp only [processLoop, hstop i, Bool.false_eq_true, if_false]
    by_cases hurl : image.originalUrl = ""
    · simp [hurl, ih (i + 1)]
    · by_cases hrep : ¬ (upload i image.originalUrl = image.originalUrl)
      · simp [hurl, hrep, ih (i + 1)]
      · simp [hurl, hrep, ih (i + 1)]

theorem imagesToProcessOf_github {content : String}
    {images : List ImageInfo} (h : isGitHubPage content images = true) :
    imagesToProcessOf content images = images := by
  have hne : images ≠ [] := by
    intro hnil
    rw [hnil] at h
    simp [isGitHubPage] at h
  have hlen0 : ¬ images.length = 0 := by
    intro hl
    exact hne (List.length_eq_zero.mp hl)
  unfold imagesToProcessOf contentImagesOf
  rw [h]
  simp [hlen0]

/-- Candidate with an empty `originalUrl` (the loop's
`if (!image.originalUrl) continue` guard skips it). -/
def emptyImg : ImageInfo where
  originalUrl := ""
  markdownUrl := none

end OutlineClient

open OutlineClient

/-- Claim C3: if the persisted `shouldStop` flag is first observed set
before iteration k — unset before every earlier image and set once image
k-1 has completed — then the run equals an unstopped run over only the
first k images: no upload network call is made for image k or any later
image, and the returned body carries exactly the substitutions made
through image k-1. -/
theorem C3_stop_truncates (upload : Nat → String → String)
    (stop : Nat → Bool) (content : String) (images : List ImageInfo)
    (k : Nat) (hb : ∀ j, j < k → stop j = false) (hk : stop k = true) :
    processImagesInContent upload stop content images =
      processLoop upload (fun _ => false) 0 content
        ((imagesToProcessOf content images).take k) := by
  unfold processImagesInContent
  have := processLoop_stop_eq upload stop k hb hk
    (imagesToProcessOf content images) 0 content (by omega)
  simpa using this

/-- Witness for claim C3's theorem: the flag set after the first image
completes truncates the run to the first image. -/
theorem C3_witness :
    processImagesInContent (fun _ u => u) (fun j => decide (1 ≤ j))
        "see https://a.example/x.png" [imgA, imgB] =
      processLoop (fun _ u => u) (fun _ => false) 0
        "see https://a.example/x.png"
        ((imagesToProcessOf "see https://a.example/x.png"
          [imgA, imgB]).take 1) :=
  C3_stop_truncates (fun _ u => u) (fun j => decide (1 ≤ j))
    "see https://a.example/x.png" [imgA, imgB] 1
    (fun j hj => by
      have h0 : j = 0 := Nat.lt_one_iff.mp hj
      subst h0
      decide)
    (by decide)

/-- Claim C9 as stated is false in one corner: the GitHub bypass does
skip the filter and keep every candidate, but the loop still skips a
candidate whose `originalUrl` is empty, so not *every* candidate image
is attempted. -/
theorem C9_counterexample :
    isGitHubPage "github.com" [camoImg, emptyImg] = true ∧
    imagesToProcessOf "github.com" [camoImg, emptyImg] =
      [camoImg, emptyImg] ∧
    (processImagesInContent (fun _ u => u) (fun _ => false) "github.com"
        [camoImg, emptyImg]).2 =
      ["https://camo.githubusercontent.com/abc"] ∧
    ¬ ((processImagesInContent (fun _ u => u) (fun _ => false) "github.com"
        [camoImg, emptyImg]).2).length = 2 := by
  refine ⟨by decide, by decide, by decide, by decide⟩

/-- Claim C9 (amended): if the body contains `github.com` and some
candidate's `originalUrl` contains `camo.githubusercontent.com`, the
appears-in-body filter is skipped entirely — the upload list is the full
candidate list — and, absent a stop request, an upload is attempted for
every candidate with a non-empty `originalUrl`, in list order, including
images whose URL never occurs in the body. -/
theorem C9_github_bypass (content : String) (images : List ImageInfo)
    (upload : Nat → String → String) (stop : Nat → Bool)
    (hg : isGitHubPage content images = true)
    (hstop : ∀ j, stop j = false) :
    imagesToProcessOf content images = images ∧
    (processImagesInContent upload stop content images).2 =
      (images.filter (fun img => !(img.originalUrl = ""))).map
        (fun img => img.originalUrl) := by
  have h1 := imagesToProcessOf_github hg
  refine ⟨h1, ?_⟩
  unfold processImagesInContent
  rw [h1]
  exact processLoop_calls_nostop upload stop hstop images 0 content

/-- Witness for claim C9's amended theorem at the concrete GitHub
inputs. -/
theorem C9_witness :
    imagesToProcessOf "github.com" [camoImg, emptyImg] =
      [camoImg, emptyImg] ∧
    (processImagesInContent (fun _ u => u) (fun _ => false) "github.com"
        [camoImg, emptyImg]).2 =
      (([camoImg, emptyImg].filter
        (fun img => !(img.originalUrl = ""))).map
          (fun img => img.originalUrl)) :=
  C9_github_bypass "github.com" [camoImg, emptyImg] (fun _ u => u)
    (fun _ => false) (by decide) (fun _ => rfl)

end WebClipper
